import Mathlib

/-!
Verification of the layout-reconstruction and transcript-accuracy engine of the
hocr-edit repository.  Go source files are embedded shallowly: Go strings are
`List Char`, Go `int` is `Int` (with explicit range conditions where the 64-bit
width matters), Go `float64` values produced by the accuracy scorer are modelled
as exact rationals `ℚ`, and fallible Go functions returning `(T, error)` are
modelled as `Except String T`.
-/

namespace Metrics

/-! ## pkg/metrics/metrics.go -/

/-- Go strings at this boundary are sequences of characters. -/
abbrev Str := List Char

/-- Code points accepted by Go's `unicode.IsSpace` (the White_Space property),
used by `strings.TrimSpace` and `strings.Fields`. -/
def goSpaceCodes : List Nat :=
  [9, 10, 11, 12, 13, 32, 133, 160, 5760,
   8192, 8193, 8194, 8195, 8196, 8197, 8198, 8199, 8200, 8201, 8202,
   8232, 8233, 8239, 8287, 12288]

def isGoSpace (c : Char) : Bool := goSpaceCodes.contains c.toNat

/-- The character class matched by `\s` in Go's regexp (RE2): `[\t\n\f\r ]`. -/
def isRe2Space (c : Char) : Bool :=
  c.toNat = 9 || c.toNat = 10 || c.toNat = 12 || c.toNat = 13 || c.toNat = 32

/-- `strings.TrimSpace`. -/
def trimSpace (s : Str) : Str :=
  ((s.dropWhile isGoSpace).reverse.dropWhile isGoSpace).reverse

/-- `regexp.MustCompile(\s+).ReplaceAllString(s, " ")`: every maximal run of
RE2 whitespace becomes a single space.  The boolean argument records whether the
previous character was part of a whitespace run. -/
def collapseGo : Bool → Str → Str
  | _, [] => []
  | inRun, c :: cs =>
    if isRe2Space c then
      if inRun then collapseGo true cs else ' ' :: collapseGo true cs
    else c :: collapseGo false cs

/-- `strings.ToLower`, character by character.  Go applies the full Unicode
simple case mapping; `Char.toLower` agrees with it on ASCII, which is the
alphabet all concrete scoring scenarios use. -/
def toLowerGo (s : Str) : Str := s.map Char.toLower

/-- `normalizeText` from metrics.go: trim, collapse whitespace runs, lowercase. -/
def normalizeText (text : Str) : Str := toLowerGo (collapseGo false (trimSpace text))

/-- `strings.Fields`: maximal runs of non-space characters.  `cur` accumulates
the current field in reverse. -/
def fieldsGo : Str → Str → List Str
  | cur, [] => if cur = [] then [] else [cur.reverse]
  | cur, c :: cs =>
    if isGoSpace c then
      if cur = [] then fieldsGo [] cs else cur.reverse :: fieldsGo [] cs
    else fieldsGo (c :: cur) cs

def splitFields (s : Str) : List Str := fieldsGo [] s

/-- One row update of the character-level Levenshtein matrix of
`levenshteinDistance`: given row `i-1` of the Go matrix (headed by its column-0
entry) and `c1 = s1[i-1]`, produce the entries of row `i` for columns `1..len2`.
`left` is the entry just computed in the current row,
`diag`/`up` are `matrix[i-1][j-1]` and `matrix[i-1][j]`. -/
def levRowGo (c1 : Char) : Nat → List Nat → Str → List Nat
  | _, _, [] => []
  | left, diag :: rest, c2 :: cs =>
    let up := rest.headD 0
    let cost := if c1 = c2 then 0 else 1
    let v := min (min (up + 1) (left + 1)) (diag + cost)
    v :: levRowGo c1 v rest cs
  | _, [], _ :: _ => []

/-- Row `i` of the matrix (including the column-0 entry `matrix[i][0] = i`),
computed from row `i-1`. -/
def levRow (c1 : Char) (prevRow : List Nat) (s2 : Str) : List Nat :=
  let first := prevRow.headD 0 + 1
  first :: levRowGo c1 first prevRow s2

/-- `levenshteinDistance` from metrics.go: the Go code fills an
`(len1+1) × (len2+1)` matrix row by row and returns `matrix[len1][len2]`;
this embedding carries one row at a time. -/
def levenshteinDistance (s1 s2 : Str) : Nat :=
  if s1.length = 0 then s2.length
  else if s2.length = 0 then s1.length
  else
    let row0 := List.range (s2.length + 1)
    let lastRow := s1.foldl (fun prev c1 => levRow c1 prev s2) row0
    lastRow.getLastD 0

/-- `calculateSimilarity` from metrics.go. -/
def calculateSimilarity (s1 s2 : Str) : ℚ :=
  let maxLen := max s1.length s2.length
  if maxLen = 0 then 1
  else 1 - (levenshteinDistance s1 s2 : ℚ) / (maxLen : ℚ)

/-- Row `i+1` of the word-level edit-distance table `dp` of
`calculateWordLevelMetrics`, as a function of the column, where `prev` is row
`i` and the row/column conventions follow the Go matrix
(`dp[i][j]` compares the first `i` original words with the first `j`
transcribed words). -/
def wordDpRow (orig trans : List Str) (prev : Nat → Nat) (i : Nat) : Nat → Nat
  | 0 => i + 1
  | j + 1 =>
    if orig.getD i [] = trans.getD j [] then prev j
    else 1 + min (min (prev (j + 1)) (wordDpRow orig trans prev i j)) (prev j)

/-- The word-level edit-distance table of `calculateWordLevelMetrics`:
`wordDp orig trans i j = dp[i][j]` of the Go matrix. -/
def wordDp (orig trans : List Str) : Nat → Nat → Nat
  | 0 => fun j => j
  | i + 1 => wordDpRow orig trans (wordDp orig trans i) i

/-- The four counters accumulated by the backtracking loop of
`calculateWordLevelMetrics`. -/
structure EditCounts where
  correct : Nat
  substitutions : Nat
  deletions : Nat
  insertions : Nat
deriving DecidableEq, Repr

/-- The backtracking loop of `calculateWordLevelMetrics`, from position
`(i, j)` down to `(0, 0)`: prefer a match, else a substitution whose diagonal
achieves the table value, else a deletion, else an insertion.  The final
fallback corresponds to the Go loop exit (`i = 0 ∧ j = 0`); for the table
`wordDp` it is reached nowhere else. -/
def backtrackCounts (orig trans : List Str) : Nat → Nat → EditCounts
  | i, j =>
    if h1 : 0 < i ∧ 0 < j ∧ orig.getD (i - 1) [] = trans.getD (j - 1) [] then
      let r := backtrackCounts orig trans (i - 1) (j - 1)
      { r with correct := r.correct + 1 }
    else if h2 : 0 < i ∧ 0 < j ∧
        wordDp orig trans i j = wordDp orig trans (i - 1) (j - 1) + 1 then
      let r := backtrackCounts orig trans (i - 1) (j - 1)
      { r with substitutions := r.substitutions + 1 }
    else if h3 : 0 < i ∧ wordDp orig trans i j = wordDp orig trans (i - 1) j + 1 then
      let r := backtrackCounts orig trans (i - 1) j
      { r with deletions := r.deletions + 1 }
    else if h4 : 0 < j ∧ wordDp orig trans i j = wordDp orig trans i (j - 1) + 1 then
      let r := backtrackCounts orig trans i (j - 1)
      { r with insertions := r.insertions + 1 }
    else ⟨0, 0, 0, 0⟩
termination_by i j => i + j
decreasing_by
  · omega
  · omega
  · omega
  · omega

/-- `calculateWordLevelMetrics`: word accuracy plus the four counters. -/
def calculateWordLevelMetrics (orig trans : List Str) : ℚ × EditCounts :=
  let m := orig.length
  let counts := backtrackCounts orig trans m trans.length
  let totalEdits := counts.substitutions + counts.deletions + counts.insertions
  let wer : ℚ := if 0 < m then (totalEdits : ℚ) / (m : ℚ) else 0
  (1 - wer, counts)

/-- The metric fields of the Go `EvalResult` struct (the bookkeeping fields
`Identifier`, `ImagePath`, ... are not produced by `CalculateAccuracyMetrics`
and are omitted). -/
structure EvalResult where
  characterSimilarity : ℚ
  wordSimilarity : ℚ
  wordAccuracy : ℚ
  wordErrorRate : ℚ
  totalWordsOriginal : Nat
  totalWordsTranscribed : Nat
  correctWords : Nat
  substitutions : Nat
  deletions : Nat
  insertions : Nat
deriving DecidableEq, Repr

/-- The reference backtracker written from the specification text (§4.5):
"Backtrack from (m, n) to (0, 0): at each step, prefer an exact match if
available, else prefer diagonal (substitution) if it achieves the table value,
else prefer original-side deletion, else transcribed-side insertion."  Used to
state that the code's backtracking follows exactly this tie-break precedence. -/
def specPrecedenceBacktrack (orig trans : List Str) : Nat → Nat → EditCounts
  | i, j =>
    if hm : 0 < i ∧ 0 < j ∧ orig.getD (i - 1) [] = trans.getD (j - 1) [] then
      let r := specPrecedenceBacktrack orig trans (i - 1) (j - 1)
      { r with correct := r.correct + 1 }
    else if hs : 0 < i ∧ 0 < j ∧
        wordDp orig trans i j = wordDp orig trans (i - 1) (j - 1) + 1 then
      let r := specPrecedenceBacktrack orig trans (i - 1) (j - 1)
      { r with substitutions := r.substitutions + 1 }
    else if hd : 0 < i ∧ wordDp orig trans i j = wordDp orig trans (i - 1) j + 1 then
      let r := specPrecedenceBacktrack orig trans (i - 1) j
      { r with deletions := r.deletions + 1 }
    else if hi : 0 < j ∧ wordDp orig trans i j = wordDp orig trans i (j - 1) + 1 then
      let r := specPrecedenceBacktrack orig trans i (j - 1)
      { r with insertions := r.insertions + 1 }
    else ⟨0, 0, 0, 0⟩
termination_by i j => i + j
decreasing_by
  · omega
  · omega
  · omega
  · omega

/-- `CalculateAccuracyMetrics` from metrics.go. -/
def CalculateAccuracyMetrics (original transcribed : Str) : EvalResult :=
  let origNorm := normalizeText original
  let transNorm := normalizeText transcribed
  let charSim := calculateSimilarity origNorm transNorm
  let origWords := splitFields origNorm
  let transWords := splitFields transNorm
  let wordSim := calculateSimilarity (List.intercalate [' '] origWords)
    (List.intercalate [' '] transWords)
  let wlm := calculateWordLevelMetrics origWords transWords
  let wer := 1 - wlm.1
  { characterSimilarity := charSim
    wordSimilarity := wordSim
    wordAccuracy := wlm.1
    wordErrorRate := wer
    totalWordsOriginal := origWords.length
    totalWordsTranscribed := transWords.length
    correctWords := wlm.2.correct
    substitutions := wlm.2.substitutions
    deletions := wlm.2.deletions
    insertions := wlm.2.insertions }

end Metrics

namespace Hocr

/-! ## Shared models (internal/models), pkg/hocr/parser and
internal/services/hocr/converter.go -/

abbrev Str := Metrics.Str

/-- The single-quote character used by the emitted markup attributes. -/
def sq : Char := Char.ofNat 39

/-- The double-quote character. -/
def dq : Char := Char.ofNat 34

def newlineChar : Char := Char.ofNat 10

/-- `models.BBox`. -/
structure BBox where
  x1 : Int
  y1 : Int
  x2 : Int
  y2 : Int
deriving DecidableEq, Repr

/-- `models.HOCRWord`.  `Confidence` is a Go `float64`, modelled as `ℚ`. -/
structure HOCRWord where
  id : Str
  text : Str
  bbox : BBox
  confidence : ℚ
  lineID : Str
deriving DecidableEq, Repr

/-- `models.HOCRLine`. -/
structure HOCRLine where
  id : Str
  bbox : BBox
  words : List HOCRWord
deriving DecidableEq, Repr

/-- The zero value `models.HOCRWord{}`. -/
def emptyWord : HOCRWord := ⟨[], [], ⟨0, 0, 0, 0⟩, 0, []⟩

instance : Inhabited HOCRWord := ⟨emptyWord⟩

instance : Inhabited HOCRLine := ⟨⟨[], ⟨0, 0, 0, 0⟩, []⟩⟩

/-- The parser's generic `XMLElement` struct: tag name, attributes
(local name and value), accumulated character data, child elements. -/
inductive XMLElement where
  | mk (name : Str) (attrs : List (Str × Str)) (content : Str)
      (children : List XMLElement)

def XMLElement.name : XMLElement → Str
  | ⟨n, _, _, _⟩ => n

def XMLElement.attrs : XMLElement → List (Str × Str)
  | ⟨_, a, _, _⟩ => a

def XMLElement.content : XMLElement → Str
  | ⟨_, _, c, _⟩ => c

def XMLElement.children : XMLElement → List XMLElement
  | ⟨_, _, _, cs⟩ => cs

/-- `strings.HasPrefix`-style check over character lists. -/
def startsWithStr : Str → Str → Bool
  | _, [] => true
  | [], _ :: _ => false
  | c :: cs, p :: ps => c = p && startsWithStr cs ps

/-- `strings.Contains s sub`. -/
def containsSub : Str → Str → Bool
  | [], sub => startsWithStr [] sub
  | s@(_ :: rest), sub => startsWithStr s sub || containsSub rest sub

def classAttr : Str := ("class").data

def idAttr : Str := ("id").data

def titleAttr : Str := ("title").data

/-- `isLineElement`: some attribute is a `class` whose value contains
the substring `ocr_line`. -/
def isLineElement (e : XMLElement) : Bool :=
  e.attrs.any fun a => a.1 = classAttr && containsSub a.2 (("ocr_line").data)

/-- `isWordElement`: some attribute is a `class` whose value contains
the substring `ocrx_word`. -/
def isWordElement (e : XMLElement) : Bool :=
  e.attrs.any fun a => a.1 = classAttr && containsSub a.2 (("ocrx_word").data)

/-- The character class matched by `\d` in Go's regexp (RE2): `[0-9]`. -/
def isDigitChar (c : Char) : Bool := 48 ≤ c.toNat && c.toNat ≤ 57

def digitVal (c : Char) : Nat := c.toNat - 48

def digitsToNat (ds : Str) : Nat := ds.foldl (fun a c => 10 * a + digitVal c) 0

/-- Decimal digits of `n`, most significant first (the digits `fmt %d` and
`strconv` produce). -/
def natDigits (n : Nat) : Str :=
  if _h : n < 10 then [Char.ofNat (48 + n)]
  else natDigits (n / 10) ++ [Char.ofNat (48 + n % 10)]
termination_by n
decreasing_by exact Nat.div_lt_self (by omega) (by omega)

/-- `fmt %d` for a Go `int`. -/
def intFmt (n : Int) : Str :=
  if n < 0 then '-' :: natDigits (-n).toNat else natDigits n.toNat

/-- `strconv.Atoi` as exercised by `parseTitleAttribute`: its arguments are
the (sign-free) `\d+` regex captures.  On a 64-bit build, values of
`2^63` or more yield `ErrRange`. -/
def atoiDigits (s : Str) : Except Str Int :=
  if s ≠ [] && s.all isDigitChar then
    let v := digitsToNat s
    if v < 2 ^ 63 then Except.ok (v : Int)
    else Except.error (("value out of range").data)
  else Except.error (("invalid syntax").data)

/-- The largest finite `float64` value, exactly: `(2^53 − 1) · 2^971`. -/
def maxFloat64Q : ℚ := ((2 ^ 53 - 1) * 2 ^ 971 : ℕ)

/-- `strconv.ParseFloat` as exercised by `parseTitleAttribute`: its argument
matches `\d+(\.\d+)?`.  The decimal value is returned exactly (as `ℚ`;
float64 rounding of in-range values is not modelled); values beyond the
float64 range yield `ErrRange` (the rounding at the very overflow boundary is
approximated by comparison with the largest finite value; no claim depends on
that boundary). -/
def parseFloatDigits (s : Str) : Except Str ℚ :=
  let ip := s.takeWhile fun c => c ≠ '.'
  let rest := s.drop ip.length
  let fp := match rest with
    | '.' :: f => f
    | _ => []
  let v : ℚ := (digitsToNat ip : ℚ) + (digitsToNat fp : ℚ) / ((10 : ℚ) ^ fp.length)
  if v ≤ maxFloat64Q then Except.ok v
  else Except.error (("value out of range").data)

def litBBox : Str := ("bbox").data

def litWconf : Str := ("x_wconf").data

/-- Consume a literal pattern fragment. -/
def dropLit : Str → Str → Option Str
  | s, [] => some s
  | [], _ :: _ => none
  | c :: cs, p :: ps => if c = p then dropLit cs ps else none

/-- Consume `\s+` (RE2 whitespace), maximal munch. -/
def takeWsPlus (s : Str) : Option Str :=
  match s with
  | c :: cs =>
    if Metrics.isRe2Space c then some (cs.dropWhile Metrics.isRe2Space) else none
  | [] => none

/-- Consume a `(\d+)` capture, maximal munch; returns (capture, rest). -/
def takeDigitsPlus (s : Str) : Option (Str × Str) :=
  match s with
  | c :: cs =>
    if isDigitChar c then
      some (c :: cs.takeWhile isDigitChar, cs.dropWhile isDigitChar)
    else none
  | [] => none

/-- Try the pattern `bbox\s+(\d+)\s+(\d+)\s+(\d+)\s+(\d+)` at the start of
`s`.  Maximal munch coincides with the regex semantics because `\s` and `\d`
are disjoint and nothing follows the last group, so no backtracking can occur. -/
def matchBBoxAt (s : Str) : Option (Str × Str × Str × Str) := do
  let s ← dropLit s litBBox
  let s ← takeWsPlus s
  let (d1, s) ← takeDigitsPlus s
  let s ← takeWsPlus s
  let (d2, s) ← takeDigitsPlus s
  let s ← takeWsPlus s
  let (d3, s) ← takeDigitsPlus s
  let s ← takeWsPlus s
  let (d4, _s) ← takeDigitsPlus s
  pure (d1, d2, d3, d4)

/-- `bboxRegex.FindStringSubmatch`: leftmost match of the bbox pattern. -/
def findBBox : Str → Option (Str × Str × Str × Str)
  | [] => none
  | c :: rest =>
    match matchBBoxAt (c :: rest) with
    | some r => some r
    | none => findBBox rest

/-- Try the pattern `x_wconf\s+(\d+(?:\.\d+)?)` at the start of `s`. -/
def matchConfAt (s : Str) : Option Str := do
  let s ← dropLit s litWconf
  let s ← takeWsPlus s
  let (d, s) ← takeDigitsPlus s
  match s with
  | '.' :: t =>
    match takeDigitsPlus t with
    | some (f, _) => pure (d ++ '.' :: f)
    | none => pure d
  | _ => pure d

/-- `confRegex.FindStringSubmatch`: leftmost match of the confidence pattern. -/
def findConf : Str → Option Str
  | [] => none
  | c :: rest =>
    match matchConfAt (c :: rest) with
    | some r => some r
    | none => findConf rest

/-- `parseTitleAttribute` from pkg/hocr/parser: two independent pattern
extractions; a missing pattern leaves the word's fields unchanged, a matched
pattern whose number fails to convert aborts with an error. -/
def parseTitleAttribute (title : Str) (w : HOCRWord) : Except Str HOCRWord := do
  let w ← match findBBox title with
    | some (a, b, c, d) => do
      let x1 ← atoiDigits a
      let y1 ← atoiDigits b
      let x2 ← atoiDigits c
      let y2 ← atoiDigits d
      pure { w with bbox := ⟨x1, y1, x2, y2⟩ }
    | none => pure w
  match findConf title with
  | some cs => do
    let conf ← parseFloatDigits cs
    pure { w with confidence := conf }
  | none => pure w

/-- The attribute loop of `parseWordElement`: `id` sets the identifier,
`title` is parsed (propagating its error), other attributes are ignored. -/
def applyWordAttrs : List (Str × Str) → HOCRWord → Except Str HOCRWord
  | [], w => Except.ok w
  | (n, v) :: rest, w =>
    if n = idAttr then applyWordAttrs rest { w with id := v }
    else if n = titleAttr then
      match parseTitleAttribute v w with
      | Except.ok w2 => applyWordAttrs rest w2
      | Except.error e => Except.error e
    else applyWordAttrs rest w

/-- `parseWordElement` from pkg/hocr/parser. -/
def parseWordElement (e : XMLElement) : Except Str HOCRWord :=
  match applyWordAttrs e.attrs emptyWord with
  | Except.ok w => Except.ok { w with text := Metrics.trimSpace e.content }
  | Except.error err => Except.error err

/-- The first `id` attribute value, if any (the loop-with-break in
`traverseElementsWithLineContext`). -/
def firstIdValue (e : XMLElement) : Option Str :=
  (e.attrs.find? fun a => a.1 = idAttr).map fun a => a.2

/-- `traverseElementsWithLineContext` from pkg/hocr/parser: depth-first walk
maintaining the current line identifier; word elements parsed without error
and with a non-empty id are collected. -/
def traverseElementsWithLineContext : XMLElement → Str → List HOCRWord
  | XMLElement.mk nm ats ct children, currentLineID =>
    let e := XMLElement.mk nm ats ct children
    let ctx := if isLineElement e then (firstIdValue e).getD currentLineID
      else currentLineID
    let here :=
      if isWordElement e then
        match parseWordElement e with
        | Except.ok w => if w.id ≠ [] then [{ w with lineID := ctx }] else []
        | Except.error _ => []
      else []
    here ++ children.attach.flatMap fun c =>
      traverseElementsWithLineContext c.1 ctx
termination_by e _ => sizeOf e
decreasing_by
  have h := List.sizeOf_lt_of_mem c.2
  simp only [XMLElement.mk.sizeOf_spec]
  omega

/-- `ParseHOCRWords` from pkg/hocr/parser.  The `encoding/xml` decode of the
input string (Go standard library) is represented by the `Except`-valued
argument: `error` when the markup is not well-formed, `ok` with the generic
element tree otherwise; the function wraps the error or traverses the tree. -/
def ParseHOCRWords (decoded : Except Str XMLElement) : Except Str (List HOCRWord) :=
  match decoded with
  | Except.error e => Except.error ((("failed to parse XML: ").data) ++ e)
  | Except.ok doc => Except.ok (traverseElementsWithLineContext doc [])

/-! ### Encoder: `ConvertHOCRLinesToXML` and its decoded element tree -/

/-- `html.EscapeString`, character by character (its five replacement pairs
are all single characters, so the simultaneous replacer is a character map). -/
def htmlEscapeChar (c : Char) : Str :=
  if c = '&' then ("&amp;").data
  else if c = sq then ("&#39;").data
  else if c = '<' then ("&lt;").data
  else if c = '>' then ("&gt;").data
  else if c = '"' then ("&#34;").data
  else [c]

def htmlEscapeString (s : Str) : Str := s.flatMap htmlEscapeChar

/-- The value of a character entity reference name: the predefined XML names
plus decimal character references, the forms `encoding/xml` resolves in
character data that this development exercises (hexadecimal references are
never produced by the escaper). -/
def entityValue (name : Str) : Option Char :=
  if name = ("amp").data then some '&'
  else if name = ("lt").data then some '<'
  else if name = ("gt").data then some '>'
  else if name = ("quot").data then some dq
  else if name = ("apos").data then some sq
  else match name with
    | '#' :: ds =>
      if ds ≠ [] && ds.all isDigitChar then some (Char.ofNat (digitsToNat ds))
      else none
    | _ => none

/-- The character denoted by an entity whose body starts at `rest`
(just after a `&`), if a well-formed `name;` follows. -/
def entityCharOf (rest : Str) : Option Char :=
  let name := rest.takeWhile fun d => d ≠ ';'
  match rest.drop name.length with
  | ';' :: _ => entityValue name
  | _ => none

/-- Entity resolution in character data, as done by the `encoding/xml`
decoder while producing `Content` (modelled for the entities above). -/
def xmlUnescape : Str → Str
  | [] => []
  | c :: rest =>
    if c = '&' then
      let name := rest.takeWhile fun d => d ≠ ';'
      match entityCharOf rest with
      | some ch => ch :: xmlUnescape (rest.drop (name.length + 1))
      | none => '&' :: xmlUnescape rest
    else c :: xmlUnescape rest
termination_by s => s.length
decreasing_by
  · simp only [List.length_drop, List.length_cons]
    omega
  · simp
  · simp

/-- `fmt %.0f` on a nonnegative float64 value (modelled as `ℚ`): round to the
nearest integer, ties to even. -/
def round0f (q : ℚ) : Nat :=
  let n := ⌊q⌋
  let fr := q - n
  if fr < 1 / 2 then n.toNat
  else if 1 / 2 < fr then (n + 1).toNat
  else if n % 2 = 0 then n.toNat else (n + 1).toNat

def fmt0f (q : ℚ) : Str := natDigits (round0f q)

/-- The `bbox x1 y1 x2 y2` fragment of a title attribute. -/
def bboxTitleStr (b : BBox) : Str :=
  ("bbox ").data ++ intFmt b.x1 ++ [' '] ++ intFmt b.y1 ++ [' ']
    ++ intFmt b.x2 ++ [' '] ++ intFmt b.y2

/-- The title attribute written for a word:
`bbox … ; x_wconf <confidence rounded by %.0f>`. -/
def wordTitleStr (w : HOCRWord) : Str :=
  bboxTitleStr w.bbox ++ ("; x_wconf ").data ++ fmt0f w.confidence

/-- `convertHOCRWordToXML` from converter.go: note the unconditional trailing
space after `</span>`. -/
def convertHOCRWordToXML (w : HOCRWord) : Str :=
  ("<span class=").data ++ [sq] ++ ("ocrx_word").data ++ [sq]
    ++ (" id=").data ++ [sq] ++ w.id ++ [sq]
    ++ (" title=").data ++ [sq] ++ wordTitleStr w ++ [sq] ++ (">").data
    ++ htmlEscapeString w.text ++ ("</span> ").data

/-- `convertHOCRLineToXML` from converter.go. -/
def convertHOCRLineToXML (l : HOCRLine) : Str :=
  ("<span class=").data ++ [sq] ++ ("ocr_line").data ++ [sq]
    ++ (" id=").data ++ [sq] ++ l.id ++ [sq]
    ++ (" title=").data ++ [sq] ++ bboxTitleStr l.bbox ++ [sq] ++ (">").data
    ++ l.words.flatMap convertHOCRWordToXML
    ++ ("</span>").data ++ [newlineChar]

/-- The fixed XHTML prologue written by `ConvertHOCRLinesToXML` (XML
declaration, DOCTYPE, html/head/meta boilerplate, body open tag). -/
def hocrHeader : Str :=
  ("<?xml version=").data ++ [dq] ++ ("1.0").data ++ [dq]
    ++ (" encoding=").data ++ [dq] ++ ("UTF-8").data ++ [dq] ++ ("?>").data
    ++ [newlineChar]
    ++ ("<!DOCTYPE html PUBLIC ").data ++ [dq]
    ++ ("-//W3C//DTD XHTML 1.0 Transitional//EN").data ++ [dq] ++ [newlineChar]
    ++ ("    ").data ++ [dq]
    ++ ("http://www.w3.org/TR/xhtml1/DTD/xhtml1-transitional.dtd").data
    ++ [dq] ++ (">").data ++ [newlineChar]
    ++ ("<html xmlns=").data ++ [dq] ++ ("http://www.w3.org/1999/xhtml").data
    ++ [dq] ++ (" xml:lang=").data ++ [dq] ++ ("en").data ++ [dq]
    ++ (" lang=").data ++ [dq] ++ ("en").data ++ [dq] ++ (">").data
    ++ [newlineChar]
    ++ ("<head>").data ++ [newlineChar]
    ++ ("<title></title>").data ++ [newlineChar]
    ++ ("<meta http-equiv=").data ++ [dq] ++ ("Content-Type").data ++ [dq]
    ++ (" content=").data ++ [dq] ++ ("text/html; charset=utf-8").data ++ [dq]
    ++ (" />").data ++ [newlineChar]
    ++ ("<meta name=").data ++ [sq] ++ ("ocr-system").data ++ [sq]
    ++ (" content=").data ++ [sq] ++ ("google-cloud-vision").data ++ [sq]
    ++ (" />").data ++ [newlineChar]
    ++ ("<meta name=").data ++ [sq] ++ ("ocr-capabilities").data ++ [sq]
    ++ (" content=").data ++ [sq]
    ++ ("ocr_page ocr_carea ocr_par ocr_line ocrx_word").data ++ [sq]
    ++ (" />").data ++ [newlineChar]
    ++ ("</head>").data ++ [newlineChar]
    ++ ("<body>").data ++ [newlineChar]

/-- The page `bbox 0 0 width height` title. -/
def pageTitleStr (w h : Int) : Str :=
  ("bbox 0 0 ").data ++ intFmt w ++ [' '] ++ intFmt h

/-- `ConvertHOCRLinesToXML` from converter.go. -/
def ConvertHOCRLinesToXML (lines : List HOCRLine) (pageWidth pageHeight : Int) : Str :=
  hocrHeader
    ++ ("<div class=").data ++ [sq] ++ ("ocr_page").data ++ [sq]
    ++ (" id=").data ++ [sq] ++ ("page_1").data ++ [sq]
    ++ (" title=").data ++ [sq] ++ pageTitleStr pageWidth pageHeight ++ [sq]
    ++ (">").data ++ [newlineChar]
    ++ lines.flatMap convertHOCRLineToXML
    ++ ("</div>").data ++ [newlineChar]
    ++ ("</body>").data ++ [newlineChar]
    ++ ("</html>").data ++ [newlineChar]

/-- The element tree of the word span emitted by `convertHOCRWordToXML`, as
the `encoding/xml` decoder reconstructs it: attribute values as written, the
content with the markup escaping undone. -/
def wordElem (w : HOCRWord) : XMLElement :=
  ⟨("span").data,
   [(classAttr, ("ocrx_word").data), (idAttr, w.id), (titleAttr, wordTitleStr w)],
   xmlUnescape (htmlEscapeString w.text), []⟩

/-- The element tree of the line span emitted by `convertHOCRLineToXML`:
its character data is the word-separating spaces (one per word, each written
after a word's closing tag). -/
def lineElem (l : HOCRLine) : XMLElement :=
  ⟨("span").data,
   [(classAttr, ("ocr_line").data), (idAttr, l.id), (titleAttr, bboxTitleStr l.bbox)],
   List.replicate l.words.length ' ', l.words.map wordElem⟩

/-- The `ocr_page` div element. -/
def pageElem (lines : List HOCRLine) (w h : Int) : XMLElement :=
  ⟨("div").data,
   [(classAttr, ("ocr_page").data), (idAttr, ("page_1").data),
    (titleAttr, pageTitleStr w h)],
   List.replicate (lines.length + 1) newlineChar, lines.map lineElem⟩

/-- The head element of the emitted document (title and three meta elements,
none of which carries a `class` attribute). -/
def headElem : XMLElement :=
  ⟨("head").data, [], List.replicate 5 newlineChar,
   [⟨("title").data, [], [], []⟩,
    ⟨("meta").data,
     [(("http-equiv").data, ("Content-Type").data),
      (("content").data, ("text/html; charset=utf-8").data)], [], []⟩,
    ⟨("meta").data,
     [(("name").data, ("ocr-system").data),
      (("content").data, ("google-cloud-vision").data)], [], []⟩,
    ⟨("meta").data,
     [(("name").data, ("ocr-capabilities").data),
      (("content").data, ("ocr_page ocr_carea ocr_par ocr_line ocrx_word").data)],
     [], []⟩]⟩

/-- The body element of the emitted document. -/
def bodyElem (lines : List HOCRLine) (w h : Int) : XMLElement :=
  ⟨("body").data, [], List.replicate 2 newlineChar, [pageElem lines w h]⟩

/-- The generic element tree that the `encoding/xml` decoder produces from the
markup string emitted by `ConvertHOCRLinesToXML lines w h` when the line and
word identifiers are attribute-safe: the XML declaration and DOCTYPE are
skipped by the decoder, `Content` concatenates the character data left between
an element's child elements, and `Children` are the child elements in
document order.  This is not assumed: `decodeXML_convert` proves that the
decoder embedding run on the emitted string itself returns exactly this
tree. -/
def encodeDoc (lines : List HOCRLine) (w h : Int) : XMLElement :=
  ⟨("html").data,
   [(("xmlns").data, ("http://www.w3.org/1999/xhtml").data),
    (("lang").data, ("en").data), (("lang").data, ("en").data)],
   List.replicate 3 newlineChar,
   [headElem, bodyElem lines w h]⟩

/-! ### The `encoding/xml` decoder on markup strings

`ParseHOCRWords` hands the markup to `xml.NewDecoder(...).Decode(&doc)`.
That decoder is a token loop over the input string maintaining a stack of
open elements; `Decode` skips everything before the first start element
(XML declaration, DOCTYPE, comments, stray character data), unmarshals the
root element -- attributes in order, direct character data concatenated into
`Content` with entities resolved, child elements into `Children` -- and
errors on markup that is not well formed (strict mode: a stray `&` that is
not a character entity, an unescaped `<` inside a quoted attribute value, a
mismatched or malformed tag, an unterminated construct).  It is embedded
below as a single-step transition function `step` on a decoder state plus a
fueled driver; fuel `length + 1` always suffices because every step consumes
input.  Two simplifications that no behaviour in this development reaches:
a directive `<!...>` is skipped to the first `>` (Go tracks quotes and
nesting inside directives), and the `]]>`-in-character-data check and CDATA
sections are not modelled (the encoder never emits `]]>` or CDATA). -/

/-- XML whitespace, as accepted between tokens inside a tag. -/
def isXmlSpace (c : Char) : Bool :=
  c = ' ' || c = Char.ofNat 9 || c = Char.ofNat 13 || c = newlineChar

/-- Characters accepted in element and attribute names (the ASCII part of
Go's name-character set; every name this development parses is ASCII). -/
def isNameChar (c : Char) : Bool :=
  (65 ≤ c.toNat && c.toNat ≤ 90) || (97 ≤ c.toNat && c.toNat ≤ 122)
  || (48 ≤ c.toNat && c.toNat ≤ 57) || c = '_' || c = '-' || c = '.' || c = ':'

/-- The local part of a possibly prefixed name: Go's decoder splits a name
at its first colon into namespace prefix and local name, and the repository
parser only ever reads `Name.Local`. -/
def localName (n : Str) : Str :=
  let pre := n.takeWhile fun c => c ≠ ':'
  match n.drop pre.length with
  | ':' :: rest => rest
  | _ => n

/-- Drop input through the first occurrence of `pat` (used to skip processing
instructions, comments and directives); `none` when `pat` never occurs. -/
def dropAfter (pat : Str) : Str → Option Str
  | [] => none
  | c :: rest =>
    if startsWithStr (c :: rest) pat then some ((c :: rest).drop pat.length)
    else dropAfter pat rest

/-- Skip a `<!...>` construct, positioned just after the `<!`: a comment runs
to `-->`, anything else (the DOCTYPE directive) to the next `>`. -/
def skipBang (r : Str) : Option Str :=
  match r with
  | '-' :: '-' :: r2 => dropAfter (("-->").data) r2
  | _ => dropAfter ((">").data) r

/-- An open element still being decoded: its name, the attributes read so
far, and the content and children accumulated so far. -/
structure PElem where
  name : Str
  attrs : List (Str × Str)
  content : Str
  children : List XMLElement

/-- The `XMLElement` produced when an open element is closed. -/
def PElem.close (p : PElem) : XMLElement := ⟨p.name, p.attrs, p.content, p.children⟩

/-- Attach a finished child element to the innermost open element. -/
def addChild (e : XMLElement) : List PElem → List PElem
  | [] => []
  | p :: ps => { p with children := p.children ++ [e] } :: ps

/-- Append character data to the innermost open element's content. -/
def addContent (cs : Str) : List PElem → List PElem
  | [] => []
  | p :: ps => { p with content := p.content ++ cs } :: ps

/-- Where the decoder is in the input: before the root element, inside
element content, inside a start tag after its name, or inside a quoted
attribute value. -/
inductive DMode where
  | prolog
  | content
  | inTag (nm : Str) (ats : List (Str × Str))
  | inValue (nm : Str) (ats : List (Str × Str)) (an : Str) (q : Char) (acc : Str)

/-- A decoder state: mode, stack of open elements (innermost first), and the
remaining input. -/
structure DState where
  mode : DMode
  stack : List PElem
  s : Str

def errEOF : Str := ("unexpected EOF").data

def errEntity : Str := ("invalid character entity").data

/-- One step of the decoder: consumes at least one character and either
continues in a new state or returns the finished root element.  Mirrors the
token scanner of `encoding/xml` in strict mode as described above. -/
def step (d : DState) : Except Str (DState ⊕ XMLElement) :=
  match d.mode, d.s with
  | _, [] => Except.error errEOF
  | DMode.prolog, c :: rest =>
    if c = '<' then
      match rest with
      | '?' :: r =>
        match dropAfter (("?>").data) r with
        | some r2 => Except.ok (Sum.inl ⟨DMode.prolog, d.stack, r2⟩)
        | none => Except.error errEOF
      | '!' :: r =>
        match skipBang r with
        | some r2 => Except.ok (Sum.inl ⟨DMode.prolog, d.stack, r2⟩)
        | none => Except.error errEOF
      | _ =>
        let nm := rest.takeWhile isNameChar
        if nm = [] then Except.error (("expected element name after <").data)
        else Except.ok (Sum.inl
          ⟨DMode.inTag (localName nm) [], d.stack, rest.drop nm.length⟩)
    else Except.ok (Sum.inl ⟨DMode.prolog, d.stack, rest⟩)
  | DMode.content, c :: rest =>
    if c = '<' then
      match rest with
      | '/' :: r =>
        let enm := r.takeWhile isNameChar
        match (r.drop enm.length).dropWhile isXmlSpace with
        | '>' :: r3 =>
          match d.stack with
          | [] => Except.error (("unexpected end tag").data)
          | p :: ps =>
            if localName enm = p.name then
              match ps with
              | [] => Except.ok (Sum.inr p.close)
              | _ :: _ => Except.ok (Sum.inl ⟨DMode.content, addChild p.close ps, r3⟩)
            else Except.error (("element closed by wrong tag").data)
        | _ => Except.error (("malformed end tag").data)
      | '?' :: r =>
        match dropAfter (("?>").data) r with
        | some r2 => Except.ok (Sum.inl ⟨DMode.content, d.stack, r2⟩)
        | none => Except.error errEOF
      | '!' :: r =>
        match skipBang r with
        | some r2 => Except.ok (Sum.inl ⟨DMode.content, d.stack, r2⟩)
        | none => Except.error errEOF
      | _ =>
        let nm := rest.takeWhile isNameChar
        if nm = [] then Except.error (("expected element name after <").data)
        else Except.ok (Sum.inl
          ⟨DMode.inTag (localName nm) [], d.stack, rest.drop nm.length⟩)
    else if c = '&' then
      match entityCharOf rest with
      | some ch =>
        Except.ok (Sum.inl ⟨DMode.content, addContent [ch] d.stack,
          rest.drop ((rest.takeWhile fun x => x ≠ ';').length + 1)⟩)
      | none => Except.error errEntity
    else Except.ok (Sum.inl ⟨DMode.content, addContent [c] d.stack, rest⟩)
  | DMode.inTag nm ats, c :: rest =>
    if isXmlSpace c then Except.ok (Sum.inl ⟨DMode.inTag nm ats, d.stack, rest⟩)
    else if c = '>' then
      Except.ok (Sum.inl ⟨DMode.content, ⟨nm, ats, [], []⟩ :: d.stack, rest⟩)
    else if c = '/' then
      match rest with
      | '>' :: r2 =>
        match d.stack with
        | [] => Except.ok (Sum.inr ⟨nm, ats, [], []⟩)
        | _ :: _ =>
          Except.ok (Sum.inl ⟨DMode.content, addChild ⟨nm, ats, [], []⟩ d.stack, r2⟩)
      | _ => Except.error (("expected element close after slash").data)
    else if isNameChar c then
      let an := (c :: rest).takeWhile isNameChar
      match ((c :: rest).drop an.length).dropWhile isXmlSpace with
      | '=' :: r3 =>
        match r3.dropWhile isXmlSpace with
        | q :: r4 =>
          if q = dq || q = sq then
            Except.ok (Sum.inl ⟨DMode.inValue nm ats (localName an) q [], d.stack, r4⟩)
          else Except.error (("unquoted attribute value").data)
        | [] => Except.error errEOF
      | _ => Except.error (("attribute name without = value").data)
    else Except.error (("invalid character in tag").data)
  | DMode.inValue nm ats an q acc, c :: rest =>
    if c = q then
      Except.ok (Sum.inl ⟨DMode.inTag nm (ats ++ [(an, acc)]), d.stack, rest⟩)
    else if c = '<' then Except.error (("unescaped < inside quoted string").data)
    else if c = '&' then
      match entityCharOf rest with
      | some ch =>
        Except.ok (Sum.inl ⟨DMode.inValue nm ats an q (acc ++ [ch]), d.stack,
          rest.drop ((rest.takeWhile fun x => x ≠ ';').length + 1)⟩)
      | none => Except.error errEntity
    else Except.ok (Sum.inl ⟨DMode.inValue nm ats an q (acc ++ [c]), d.stack, rest⟩)

/-- Run the decoder for at most `fuel` steps. -/
def runD : Nat → DState → Except Str XMLElement
  | 0, _ => Except.error errEOF
  | fuel + 1, d =>
    match step d with
    | Except.error e => Except.error e
    | Except.ok (Sum.inr e) => Except.ok e
    | Except.ok (Sum.inl d2) => runD fuel d2

/-- `xml.NewDecoder(strings.NewReader(s)).Decode(&doc)`: run the token loop
from the initial state.  Each step consumes at least one character, so
`s.length + 1` steps always suffice (proved below); input after the root
element's end tag is not read, as `Decode` returns once the root is done. -/
def decodeXML (s : Str) : Except Str XMLElement :=
  runD (s.length + 1) ⟨DMode.prolog, [], s⟩

/-- Run the decoder for at most `n` steps, keeping an unfinished state. -/
def run2 : Nat → DState → Except Str (DState ⊕ XMLElement)
  | 0, d => Except.ok (Sum.inl d)
  | n + 1, d =>
    match step d with
    | Except.ok (Sum.inl d2) => run2 n d2
    | r => r

/-- One successful, non-final decoder step. -/
def StepR (d d2 : DState) : Prop := step d = Except.ok (Sum.inl d2)

/-- Finitely many successful decoder steps. -/
def Steps : DState → DState → Prop := Relation.ReflTransGen StepR

/-- Characters of an attribute value that survive the encoder's raw
interpolation into a single-quoted attribute: a single quote ends the value
early, an ampersand must start a character entity, and an unescaped `<` is
rejected inside a quoted string, so an identifier containing any of the
three makes the emitted markup non-well-formed. -/
def xmlAttrSafe (c : Char) : Bool := !(c = sq || c = '&' || c = '<')

/-- Structural validity of a word for the encode/decode round trip, from the
spec's data model and the encoder's own representation limits: a non-empty identifier, text with no leading or trailing
whitespace (a word token), a proper bounding box whose pixel coordinates are
nonnegative and representable in a 64-bit int, a confidence in [0, 100], and
an identifier free of the characters that break its raw interpolation into a
single-quoted attribute. -/
def ValidHOCRWord (w : HOCRWord) : Prop :=
  w.id ≠ [] ∧ Metrics.trimSpace w.text = w.text
  ∧ 0 ≤ w.bbox.x1 ∧ w.bbox.x1 < w.bbox.x2 ∧ w.bbox.x2 < 2 ^ 63
  ∧ 0 ≤ w.bbox.y1 ∧ w.bbox.y1 < w.bbox.y2 ∧ w.bbox.y2 < 2 ^ 63
  ∧ 0 ≤ w.confidence ∧ w.confidence ≤ 100
  ∧ w.id.all xmlAttrSafe = true

/-- Structural validity of a hierarchical structure handed to the encoder:
at least one line, valid words, distinct line identifiers, and line
identifiers free of the characters that break their raw interpolation into a
single-quoted attribute. -/
def ValidHOCRLines (lines : List HOCRLine) : Prop :=
  lines ≠ [] ∧ (∀ l ∈ lines, ∀ w ∈ l.words, ValidHOCRWord w)
  ∧ (lines.map fun l => l.id).Nodup
  ∧ (∀ l ∈ lines, l.id.all xmlAttrSafe = true)

instance : DecidablePred ValidHOCRWord := fun w => by
  unfold ValidHOCRWord
  exact inferInstance

instance : DecidablePred ValidHOCRLines := fun lines => by
  unfold ValidHOCRLines
  exact inferInstance

/-- The index of the line of `S` each word of the flattened word sequence
belongs to, starting at line index `k`. -/
def flatLineIndexFrom : Nat → List HOCRLine → List Nat
  | _, [] => []
  | k, l :: rest => List.replicate l.words.length k ++ flatLineIndexFrom (k + 1) rest

/-- For each word of `S` (in document order), the index of its line in `S`:
two positions carry the same index exactly when the words lie in the same
line of `S`. -/
def flatLineIndex (lines : List HOCRLine) : List Nat := flatLineIndexFrom 0 lines

/-- The word record the decoder produces for a source word `w` lying in the
line whose id attribute is `lid`: text and bbox are carried over unchanged,
the confidence is re-read from its `%.0f` rendering, and `lineID` is `lid`. -/
def decodedWord (lid : Str) (w : HOCRWord) : HOCRWord :=
  { id := w.id
    text := w.text
    bbox := w.bbox
    confidence := ((round0f w.confidence : ℕ) : ℚ)
    lineID := lid }

end Hocr

namespace Gcv

/-! ## GCV-shaped models (internal/models/gcv.go), the hierarchical converter
(`convertWord`, second converter.go), and the Words-to-Lines grouping
(`groupWordsIntoLines`, word-detection service) -/

abbrev Str := Metrics.Str

/-- `models.Vertex`. -/
structure Vertex where
  x : Int
  y : Int
deriving DecidableEq, Repr

/-- `models.BoundingPoly`. -/
structure BoundingPoly where
  vertices : List Vertex
deriving DecidableEq, Repr

/-- `models.DetectedBreak`. -/
structure DetectedBreak where
  type : Str
deriving DecidableEq, Repr

/-- `models.DetectedLanguage` (`Confidence` is a float64, modelled as `ℚ`). -/
structure DetectedLanguage where
  languageCode : Str
  confidence : ℚ
deriving DecidableEq, Repr

/-- `models.Property` (`DetectedBreak` is a nil-able pointer). -/
structure Property where
  detectedLanguages : List DetectedLanguage
  detectedBreak : Option DetectedBreak
deriving DecidableEq, Repr

/-- `models.Symbol` (`Property` is a nil-able pointer). -/
structure Symbol where
  property : Option Property
  boundingBox : BoundingPoly
  text : Str
deriving DecidableEq, Repr

/-- `models.Word`. -/
structure Word where
  property : Option Property
  boundingBox : BoundingPoly
  symbols : List Symbol
deriving DecidableEq, Repr

instance : Inhabited Word := ⟨⟨none, ⟨[]⟩, []⟩⟩

/-! ### `convertWord` (hierarchical converter) -/

/-- `boundingPolyToBBox` from the hierarchical converter: min/max over the
vertices, starting from `int(^uint(0)>>1)` (the largest 64-bit int) for the
minima and `0` for the maxima. -/
def boundingPolyToBBox (bp : BoundingPoly) : Str :=
  if bp.vertices = [] then ("bbox 0 0 0 0").data
  else
    let acc := bp.vertices.foldl
      (fun (acc : Int × Int × Int × Int) v =>
        (if v.x < acc.1 then v.x else acc.1,
         if v.y < acc.2.1 then v.y else acc.2.1,
         if v.x > acc.2.2.1 then v.x else acc.2.2.1,
         if v.y > acc.2.2.2 then v.y else acc.2.2.2))
      (2 ^ 63 - 1, 2 ^ 63 - 1, 0, 0)
    ("bbox ").data ++ Hocr.intFmt acc.1 ++ [' '] ++ Hocr.intFmt acc.2.1
      ++ [' '] ++ Hocr.intFmt acc.2.2.1 ++ [' '] ++ Hocr.intFmt acc.2.2.2

/-- The concatenation of a word's symbol texts. -/
def symbolsText (w : Word) : Str := w.symbols.flatMap fun s => s.text

/-- The optional `; x_lang …` title fragment. -/
def wordLangSuffix (w : Word) : Str :=
  match w.property with
  | some p =>
    match p.detectedLanguages with
    | l :: _ => ("; x_lang ").data ++ l.languageCode
    | [] => []
  | none => []

/-- The break type attached to a word's last symbol, if any. -/
def lastSymbolBreakType (w : Word) : Option Str :=
  match w.symbols.getLast? with
  | some s =>
    match s.property with
    | some p =>
      match p.detectedBreak with
      | some b => some b.type
      | none => none
    | none => none
  | none => none

/-- Whether a word's last symbol carries a structural line break
(`LINE_BREAK` or `EOL_SURE_SPACE`). -/
def endsWithLineBreak (w : Word) : Bool :=
  match lastSymbolBreakType w with
  | some t => t = ("LINE_BREAK").data || t = ("EOL_SURE_SPACE").data
  | none => false

/-- The `fmt.Sprintf` result assigned to `wordHOCR` in `convertWord` before
the conditional trailing space (word counter `n`). -/
def wordSpanCore (n : Nat) (w : Word) : Str :=
  ("<span class=").data ++ [Hocr.sq] ++ ("ocrx_word").data ++ [Hocr.sq]
    ++ (" id=").data ++ [Hocr.sq] ++ ("word_").data ++ Hocr.natDigits n ++ [Hocr.sq]
    ++ (" title=").data ++ [Hocr.sq] ++ boundingPolyToBBox w.boundingBox
    ++ ("; x_wconf 95").data ++ wordLangSuffix w ++ [Hocr.sq] ++ (">").data
    ++ Hocr.htmlEscapeString (symbolsText w) ++ ("</span>").data

/-- `convertWord` from the hierarchical converter: the span, followed by a
separating space unless the word has no symbols or its last symbol carries a
structural line break. -/
def convertWord (n : Nat) (w : Word) : Str :=
  let core := wordSpanCore n w
  if w.symbols ≠ [] && !endsWithLineBreak w then core ++ [' '] else core

/-! ### `groupWordsIntoLines` (word-detection service, Words → Lines) -/

/-- `Vertices[0].Y` (a word's top edge).  Go indexes the slice directly; the
claims about grouping quantify over words with the full four vertices, where
the default is never used. -/
def wordTop (w : Word) : Int := (w.boundingBox.vertices.getD 0 ⟨0, 0⟩).y

/-- `Vertices[2].Y` (a word's bottom edge). -/
def wordBottom (w : Word) : Int := (w.boundingBox.vertices.getD 2 ⟨0, 0⟩).y

/-- `Vertices[0].X` (a word's left edge). -/
def wordX (w : Word) : Int := (w.boundingBox.vertices.getD 0 ⟨0, 0⟩).x

/-- The sort key of the initial `sort.Slice` (by Y, then X).  Go's sort is
unstable, so ties are in unspecified order; the reflexive refinement sorted by
`List.insertionSort` is one of its admissible outcomes. -/
def byYX (a b : Word) : Prop :=
  wordTop a < wordTop b ∨ (wordTop a = wordTop b ∧ wordX a ≤ wordX b)

instance : DecidableRel byYX := fun a b => by
  unfold byYX
  exact inferInstance

/-- The per-line sort key of the final `sort.Slice` (by X). -/
def byX (a b : Word) : Prop := wordX a ≤ wordX b

instance : DecidableRel byX := fun a b => by
  unfold byX
  exact inferInstance

instance : IsTotal Word byX := ⟨fun a b => le_total (wordX a) (wordX b)⟩

instance : IsTrans Word byX := ⟨fun _ _ _ hab hbc => le_trans hab hbc⟩

/-- The accumulated top of a line (`lineTop` in the Go loop): the minimum of
the member tops, seeded with the first member's top. -/
def lineTopOf (line : List Word) : Int :=
  line.foldl (fun acc w => min acc (wordTop w)) (wordTop (line.headD default))

/-- The accumulated bottom of a line (`lineBottom`): the maximum of the member
bottoms, seeded with the first member's bottom. -/
def lineBottomOf (line : List Word) : Int :=
  line.foldl (fun acc w => max acc (wordBottom w)) (wordBottom (line.headD default))

/-- The overlap test of `groupWordsIntoLines`: the candidate's vertical extent
meets the line's accumulated extent within a tolerance of half the candidate's
height. -/
def overlapsLine (w : Word) (line : List Word) : Bool :=
  let tol := (wordBottom w - wordTop w) / 2
  decide (lineTopOf line - tol ≤ wordBottom w ∧ wordTop w ≤ lineBottomOf line + tol)

/-- One step of the grouping loop: append the word to the first non-empty
overlapping line, else start a new line at the end. -/
def insertWordIntoLines (w : Word) : List (List Word) → List (List Word)
  | [] => [[w]]
  | line :: rest =>
    if line ≠ [] && overlapsLine w line then (line ++ [w]) :: rest
    else line :: insertWordIntoLines w rest

/-- `groupWordsIntoLines` from the word-detection service: sort by (Y, X),
sweep the words into vertically overlapping lines, then order each line by X. -/
def groupWordsIntoLines (words : List Word) : List (List Word) :=
  if words = [] then []
  else
    let sortedWords := List.insertionSort byYX words
    let lines := sortedWords.foldl (fun lines w => insertWordIntoLines w lines) []
    lines.map fun l => List.insertionSort byX l

end Gcv

namespace Detect

/-! ## Connected-component detection (word-detection service,
`findConnectedComponents` / `floodFill` / `isTextPixel`; the two copies in the
repository are line-for-line identical) -/

/-- The 16-bit premultiplied channels returned by Go's `color.Color.RGBA()`
(the alpha channel is unused by `isTextPixel`). -/
structure GoColor where
  r : Nat
  g : Nat
  b : Nat
deriving DecidableEq, Repr

/-- `isTextPixel`: average channel value below the 50% gray threshold. -/
def isTextPixel (c : GoColor) : Bool := (c.r + c.g + c.b) / 3 < 32768

/-- The decoded raster handed to the detector: bounds and the color at each
pixel (`img.At`). -/
structure Img where
  width : Nat
  height : Nat
  colorAt : Int → Int → GoColor

/-- The bounding-box struct accumulated by the detector (`X, Y, Width,
Height`). -/
structure LineBoundingBox where
  x : Int
  y : Int
  width : Int
  height : Int
deriving DecidableEq, Repr

/-- The 8-connected neighbor offsets, in the order the Go code visits them. -/
def dirs8 : List (Int × Int) :=
  [(-1, -1), (-1, 0), (-1, 1), (0, -1), (0, 1), (1, -1), (1, 0), (1, 1)]

/-- `visited[y][x]` on the row-major visited matrix (indexed only after the
bounds checks, exactly as in the Go code). -/
def visitedAt (visited : List (List Bool)) (x y : Int) : Bool :=
  (visited.getD y.toNat []).getD x.toNat false

/-- `visited[y][x] = true`. -/
def visitedSet (visited : List (List Bool)) (x y : Int) : List (List Bool) :=
  visited.set y.toNat ((visited.getD y.toNat []).set x.toNat true)

/-- `floodFill`: depth-first flood fill over unvisited text pixels, updating
the visited matrix and the running min/max bounds `(minX, minY, maxX, maxY)`.
The fuel bounds the recursion depth; since every recursive level marks one
more pixel visited, a fuel of `width * height + 1` (as supplied by
`findConnectedComponents`) can never run out. -/
def floodFill (img : Img) :
    Nat → List (List Bool) → Int → Int → Int × Int × Int × Int →
      List (List Bool) × (Int × Int × Int × Int)
  | 0, visited, _, _, acc => (visited, acc)
  | fuel + 1, visited, x, y, acc =>
    if x < 0 || (img.width : Int) ≤ x || y < 0 || (img.height : Int) ≤ y
        || visitedAt visited x y || !isTextPixel (img.colorAt x y) then
      (visited, acc)
    else
      let visited2 := visitedSet visited x y
      let acc2 := (min acc.1 x, min acc.2.1 y, max acc.2.2.1 x, max acc.2.2.2 y)
      dirs8.foldl
        (fun st d => floodFill img fuel st.1 (x + d.1) (y + d.2) st.2)
        (visited2, acc2)

/-- `findConnectedComponents`: allocate the visited matrix, scan the raster in
row-major order, flood-fill each unvisited text pixel, and keep the component
when `w >= 5 && h >= 8 && w <= width/2 && h <= height/4`. -/
def findConnectedComponents (img : Img) : List LineBoundingBox :=
  ((List.range img.height).foldl
    (fun stY (y : Nat) =>
      (List.range img.width).foldl
        (fun (st : List (List Bool) × List LineBoundingBox) (x : Nat) =>
          if !visitedAt st.1 (x : Int) (y : Int) && isTextPixel (img.colorAt x y) then
            let r := floodFill img (img.width * img.height + 1) st.1
              (x : Int) (y : Int) ((x : Int), (y : Int), (x : Int), (y : Int))
            let w := r.2.2.2.1 - r.2.1 + 1
            let h := r.2.2.2.2 - r.2.2.1 + 1
            if 5 ≤ w ∧ 8 ≤ h ∧ w ≤ (img.width : Int) / 2
                ∧ h ≤ (img.height : Int) / 4 then
              (r.1, st.2 ++ [⟨r.2.1, r.2.2.1, w, h⟩])
            else (r.1, st.2)
          else st)
        stY)
    (List.replicate img.height (List.replicate img.width false), [])).2

/-- A concrete 10 × 32 raster for exercising the detector: an L-shaped
stroke of black pixels (the left column of rows 0–7 and the bottom row of
columns 0–4), white elsewhere. -/
def witnessImg : Img :=
  ⟨10, 32, fun x y =>
    if (x = 0 ∧ 0 ≤ y ∧ y < 8) ∨ (0 ≤ x ∧ x < 5 ∧ y = 7) then ⟨0, 0, 0⟩
    else ⟨65535, 65535, 65535⟩⟩

end Detect

namespace Metrics

/-! ## Word-level scoring: supporting lemmas -/

theorem wordDp_zero_left (o t : List Str) (j : Nat) : wordDp o t 0 j = j := rfl

theorem wordDp_zero_right (o t : List Str) (i : Nat) : wordDp o t i 0 = i := by
  cases i <;> rfl

theorem wordDp_succ_succ (o t : List Str) (i j : Nat) :
    wordDp o t (i + 1) (j + 1) =
      if o.getD i [] = t.getD j [] then wordDp o t i j
      else 1 + min (min (wordDp o t i (j + 1)) (wordDp o t (i + 1) j))
        (wordDp o t i j) := rfl

theorem backtrackCounts_sums (o t : List Str) : ∀ i j : Nat,
    ((backtrackCounts o t i j).correct + (backtrackCounts o t i j).substitutions
      + (backtrackCounts o t i j).deletions = i) ∧
    ((backtrackCounts o t i j).correct + (backtrackCounts o t i j).substitutions
      + (backtrackCounts o t i j).insertions = j) := by
  intro i j
  induction i, j using backtrackCounts.induct o t with
  | case1 i j h ih =>
    rw [backtrackCounts.eq_def]
    simp only [dif_pos h]
    obtain ⟨ih1, ih2⟩ := ih
    obtain ⟨hi0, hj0, -⟩ := h
    omega
  | case2 i j h1 h ih =>
    rw [backtrackCounts.eq_def]
    simp only [dif_neg h1, dif_pos h]
    obtain ⟨ih1, ih2⟩ := ih
    obtain ⟨hi0, hj0, -⟩ := h
    omega
  | case3 i j h1 h2 h ih =>
    rw [backtrackCounts.eq_def]
    simp only [dif_neg h1, dif_neg h2, dif_pos h]
    obtain ⟨ih1, ih2⟩ := ih
    obtain ⟨hi0, -⟩ := h
    omega
  | case4 i j h1 h2 h3 h ih =>
    rw [backtrackCounts.eq_def]
    simp only [dif_neg h1, dif_neg h2, dif_neg h3, dif_pos h]
    obtain ⟨ih1, ih2⟩ := ih
    obtain ⟨hj0, -⟩ := h
    omega
  | case5 i j h1 h2 h3 h4 =>
    rw [backtrackCounts.eq_def]
    simp only [dif_neg h1, dif_neg h2, dif_neg h3, dif_neg h4]
    rcases i with _ | a
    · rcases j with _ | b
      · simp
      · exfalso
        exact h4 ⟨Nat.succ_pos b, by
          rw [wordDp_zero_left, wordDp_zero_left]; omega⟩
    · rcases j with _ | b
      · exfalso
        exact h3 ⟨Nat.succ_pos a, by
          rw [wordDp_zero_right, wordDp_zero_right]; omega⟩
      · exfalso
        have hne : ¬ o.getD a [] = t.getD b [] := by
          intro he
          exact h1 ⟨Nat.succ_pos a, Nat.succ_pos b, by simpa using he⟩
        have hval : wordDp o t (a + 1) (b + 1) =
            1 + min (min (wordDp o t a (b + 1)) (wordDp o t (a + 1) b))
              (wordDp o t a b) := by
          rw [wordDp_succ_succ, if_neg hne]
        have hs : ¬ wordDp o t (a + 1) (b + 1) = wordDp o t a b + 1 := by
          intro he
          exact h2 ⟨Nat.succ_pos a, Nat.succ_pos b, by simpa using he⟩
        have hd : ¬ wordDp o t (a + 1) (b + 1) = wordDp o t a (b + 1) + 1 := by
          intro he
          exact h3 ⟨Nat.succ_pos a, by simpa using he⟩
        have hi : ¬ wordDp o t (a + 1) (b + 1) = wordDp o t (a + 1) b + 1 := by
          intro he
          exact h4 ⟨Nat.succ_pos b, by simpa using he⟩
        have hc1 := min_choice (min (wordDp o t a (b + 1)) (wordDp o t (a + 1) b))
          (wordDp o t a b)
        have hc2 := min_choice (wordDp o t a (b + 1)) (wordDp o t (a + 1) b)
        omega

theorem backtrackCounts_zero_zero (o t : List Str) :
    backtrackCounts o t 0 0 = ⟨0, 0, 0, 0⟩ := by
  rw [backtrackCounts.eq_def]
  norm_num

/-! ## Projection lemmas for `CalculateAccuracyMetrics` -/

theorem calc_totalWordsOriginal (o t : Str) :
    (CalculateAccuracyMetrics o t).totalWordsOriginal
      = (splitFields (normalizeText o)).length := rfl

theorem calc_totalWordsTranscribed (o t : Str) :
    (CalculateAccuracyMetrics o t).totalWordsTranscribed
      = (splitFields (normalizeText t)).length := rfl

theorem calc_counts (o t : Str) :
    (CalculateAccuracyMetrics o t).correctWords
        = (backtrackCounts (splitFields (normalizeText o))
            (splitFields (normalizeText t)) (splitFields (normalizeText o)).length
            (splitFields (normalizeText t)).length).correct
      ∧ (CalculateAccuracyMetrics o t).substitutions
        = (backtrackCounts (splitFields (normalizeText o))
            (splitFields (normalizeText t)) (splitFields (normalizeText o)).length
            (splitFields (normalizeText t)).length).substitutions
      ∧ (CalculateAccuracyMetrics o t).deletions
        = (backtrackCounts (splitFields (normalizeText o))
            (splitFields (normalizeText t)) (splitFields (normalizeText o)).length
            (splitFields (normalizeText t)).length).deletions
      ∧ (CalculateAccuracyMetrics o t).insertions
        = (backtrackCounts (splitFields (normalizeText o))
            (splitFields (normalizeText t)) (splitFields (normalizeText o)).length
            (splitFields (normalizeText t)).length).insertions :=
  ⟨rfl, rfl, rfl, rfl⟩

theorem calc_wordAccuracy_def (o t : Str) :
    (CalculateAccuracyMetrics o t).wordAccuracy =
      1 - (if 0 < (splitFields (normalizeText o)).length
        then (((backtrackCounts (splitFields (normalizeText o))
              (splitFields (normalizeText t)) (splitFields (normalizeText o)).length
              (splitFields (normalizeText t)).length).substitutions
            + (backtrackCounts (splitFields (normalizeText o))
              (splitFields (normalizeText t)) (splitFields (normalizeText o)).length
              (splitFields (normalizeText t)).length).deletions
            + (backtrackCounts (splitFields (normalizeText o))
              (splitFields (normalizeText t)) (splitFields (normalizeText o)).length
              (splitFields (normalizeText t)).length).insertions : ℕ) : ℚ)
          / ((splitFields (normalizeText o)).length : ℚ)
        else 0) := rfl

theorem calc_wordErrorRate_def (o t : Str) :
    (CalculateAccuracyMetrics o t).wordErrorRate
      = 1 - (CalculateAccuracyMetrics o t).wordAccuracy := rfl

theorem backtrackCounts_eq_specPrecedence (o t : List Str) : ∀ i j : Nat,
    backtrackCounts o t i j = specPrecedenceBacktrack o t i j := by
  intro i j
  induction i, j using backtrackCounts.induct o t with
  | case1 i j h ih =>
    rw [backtrackCounts.eq_def, specPrecedenceBacktrack.eq_def]
    simp only [dif_pos h, ih]
  | case2 i j h1 h ih =>
    rw [backtrackCounts.eq_def, specPrecedenceBacktrack.eq_def]
    simp only [dif_neg h1, dif_pos h, ih]
  | case3 i j h1 h2 h ih =>
    rw [backtrackCounts.eq_def, specPrecedenceBacktrack.eq_def]
    simp only [dif_neg h1, dif_neg h2, dif_pos h, ih]
  | case4 i j h1 h2 h3 h ih =>
    rw [backtrackCounts.eq_def, specPrecedenceBacktrack.eq_def]
    simp only [dif_neg h1, dif_neg h2, dif_neg h3, dif_pos h, ih]
  | case5 i j h1 h2 h3 h4 =>
    rw [backtrackCounts.eq_def, specPrecedenceBacktrack.eq_def]
    simp only [dif_neg h1, dif_neg h2, dif_neg h3, dif_neg h4]

/-! ## Claim theorems for the accuracy scorer -/

/-- C9: for every pair of input strings, the accuracy result satisfies
`correct_words + substitutions + deletions = total_words_original` and
`correct_words + substitutions + insertions = total_words_transcribed`. -/
theorem c9_edit_count_partition (original transcribed : Str) :
    ((CalculateAccuracyMetrics original transcribed).correctWords
      + (CalculateAccuracyMetrics original transcribed).substitutions
      + (CalculateAccuracyMetrics original transcribed).deletions
      = (CalculateAccuracyMetrics original transcribed).totalWordsOriginal)
    ∧ ((CalculateAccuracyMetrics original transcribed).correctWords
      + (CalculateAccuracyMetrics original transcribed).substitutions
      + (CalculateAccuracyMetrics original transcribed).insertions
      = (CalculateAccuracyMetrics original transcribed).totalWordsTranscribed) := by
  have h := backtrackCounts_sums (splitFields (normalizeText original))
    (splitFields (normalizeText transcribed))
    (splitFields (normalizeText original)).length
    (splitFields (normalizeText transcribed)).length
  constructor
  · rw [(calc_counts original transcribed).1, (calc_counts original transcribed).2.1,
      (calc_counts original transcribed).2.2.1, calc_totalWordsOriginal]
    exact h.1
  · rw [(calc_counts original transcribed).1, (calc_counts original transcribed).2.1,
      (calc_counts original transcribed).2.2.2, calc_totalWordsTranscribed]
    exact h.2

/-- C2 (amended): for every pair of input strings whose normalized original
tokenizes to at least one word, or whose normalized transcription tokenizes to
none, `word_accuracy = 1 − (substitutions + deletions + insertions) /
max(1, total_words_original)`, and `word_error_rate = 1 − word_accuracy`.
(The original claim, quantified over all inputs, fails when the original
tokenizes to no words but the transcription does not: the code then reports
accuracy 1 regardless of the insertions.) -/
theorem c2_word_accuracy_formula (original transcribed : Str)
    (h : 0 < (CalculateAccuracyMetrics original transcribed).totalWordsOriginal
      ∨ (CalculateAccuracyMetrics original transcribed).totalWordsTranscribed = 0) :
    ((CalculateAccuracyMetrics original transcribed).wordAccuracy =
      1 - (((CalculateAccuracyMetrics original transcribed).substitutions
          + (CalculateAccuracyMetrics original transcribed).deletions
          + (CalculateAccuracyMetrics original transcribed).insertions : ℕ) : ℚ)
        / ((max 1 (CalculateAccuracyMetrics original transcribed).totalWordsOriginal : ℕ) : ℚ))
    ∧ (CalculateAccuracyMetrics original transcribed).wordErrorRate =
      1 - (CalculateAccuracyMetrics original transcribed).wordAccuracy := by
  refine ⟨?_, rfl⟩
  rw [(calc_counts original transcribed).2.1, (calc_counts original transcribed).2.2.1,
    (calc_counts original transcribed).2.2.2, calc_totalWordsOriginal,
    calc_wordAccuracy_def]
  by_cases hm : 0 < (splitFields (normalizeText original)).length
  · rw [if_pos hm, Nat.max_eq_right hm]
  · have hm0 : (splitFields (normalizeText original)).length = 0 := by omega
    have hn0 : (splitFields (normalizeText transcribed)).length = 0 := by
      rcases h with h | h
      · rw [calc_totalWordsOriginal] at h
        omega
      · rw [calc_totalWordsTranscribed] at h
        exact h
    rw [if_neg hm, hm0, hn0, backtrackCounts_zero_zero]
    norm_num

/-- Witness for C2 at a concrete input with a nonempty original. -/
theorem c2_word_accuracy_formula_witness :
    ((CalculateAccuracyMetrics (("a").data) (("b").data)).wordAccuracy =
      1 - (((CalculateAccuracyMetrics (("a").data) (("b").data)).substitutions
          + (CalculateAccuracyMetrics (("a").data) (("b").data)).deletions
          + (CalculateAccuracyMetrics (("a").data) (("b").data)).insertions : ℕ) : ℚ)
        / ((max 1 (CalculateAccuracyMetrics (("a").data) (("b").data)).totalWordsOriginal : ℕ) : ℚ))
    ∧ (CalculateAccuracyMetrics (("a").data) (("b").data)).wordErrorRate =
      1 - (CalculateAccuracyMetrics (("a").data) (("b").data)).wordAccuracy :=
  c2_word_accuracy_formula (("a").data) (("b").data) (Or.inl (by decide))

/-- Counterexample to C2 as stated: on original `""` and transcription `"a"`
the original tokenizes to no words, there is 1 insertion, and the code reports
`word_accuracy = 1`, while the claimed formula demands
`1 − 1 / max(1, 0) = 0`. -/
theorem c2_max_formula_counterexample :
    ¬ ((CalculateAccuracyMetrics [] (("a").data)).wordAccuracy =
      1 - (((CalculateAccuracyMetrics [] (("a").data)).substitutions
          + (CalculateAccuracyMetrics [] (("a").data)).deletions
          + (CalculateAccuracyMetrics [] (("a").data)).insertions : ℕ) : ℚ)
        / ((max 1 (CalculateAccuracyMetrics [] (("a").data)).totalWordsOriginal : ℕ) : ℚ)) := by
  intro hEq
  have hO : splitFields (normalizeText ([] : Str)) = [] := by decide
  have hT : splitFields (normalizeText (("a").data)) = [("a").data] := by decide
  rw [(calc_counts [] (("a").data)).2.1, (calc_counts [] (("a").data)).2.2.1,
    (calc_counts [] (("a").data)).2.2.2, calc_totalWordsOriginal,
    calc_wordAccuracy_def, hO, hT] at hEq
  simp only [List.length_nil, List.length_cons] at hEq
  rw [show backtrackCounts ([] : List Str) [("a").data] 0 (0 + 1) = ⟨0, 0, 0, 1⟩
    from by simp +decide [backtrackCounts.eq_def]] at hEq
  norm_num at hEq

/-- C3: scoring two empty strings yields `character_similarity = 1`,
`word_accuracy = 1` and `word_error_rate = 0`; and for every pair of inputs
whose normalized original tokenizes to the empty word sequence, the word error
rate is 0. -/
theorem c3_empty_original_zero_wer :
    ((CalculateAccuracyMetrics [] []).characterSimilarity = 1
      ∧ (CalculateAccuracyMetrics [] []).wordAccuracy = 1
      ∧ (CalculateAccuracyMetrics [] []).wordErrorRate = 0)
    ∧ ∀ original transcribed : Str,
      splitFields (normalizeText original) = [] →
      (CalculateAccuracyMetrics original transcribed).wordErrorRate = 0 := by
  have hAcc : ∀ original transcribed : Str,
      splitFields (normalizeText original) = [] →
      (CalculateAccuracyMetrics original transcribed).wordAccuracy = 1 := by
    intro original transcribed hO
    rw [calc_wordAccuracy_def, hO]
    norm_num
  have hWer : ∀ original transcribed : Str,
      splitFields (normalizeText original) = [] →
      (CalculateAccuracyMetrics original transcribed).wordErrorRate = 0 := by
    intro original transcribed hO
    rw [calc_wordErrorRate_def, hAcc original transcribed hO]
    norm_num
  refine ⟨⟨?_, hAcc [] [] (by decide), hWer [] [] (by decide)⟩,
    fun o t hO => hWer o t hO⟩
  show calculateSimilarity (normalizeText []) (normalizeText []) = 1
  norm_num [normalizeText, trimSpace, collapseGo, toLowerGo, calculateSimilarity]

/-- Witness for C3's universally quantified part at a whitespace-only
original. -/
theorem c3_empty_original_zero_wer_witness :
    (CalculateAccuracyMetrics [' '] (("y").data)).wordErrorRate = 0 :=
  c3_empty_original_zero_wer.2 [' '] (("y").data) (by decide)

/-- A fold preserves any invariant its step preserves. -/
theorem foldl_inv {α σ : Type _} (step : σ → α → σ) (P : σ → Prop)
    (h : ∀ s a, P s → P (step s a)) :
    ∀ (l : List α) (s : σ), P s → P (l.foldl step s) := by
  intro l
  induction l with
  | nil => intro s hs; exact hs
  | cons a l ih => intro s hs; exact ih _ (h s a hs)

/-- A fold over elements that all fix the state returns the state. -/
theorem foldl_fixed {α σ : Type _} (f : σ → α → σ) (s : σ) :
    ∀ l : List α, (∀ a ∈ l, f s a = s) → l.foldl f s = s := by
  intro l
  induction l with
  | nil => intro _; rfl
  | cons a l ih =>
    intro h
    rw [List.foldl_cons, h a (List.mem_cons_self a l)]
    exact ih fun b hb => h b (List.mem_cons_of_mem a hb)

/-- C4: scoring "the cat sat" against "the dog sat" yields exactly 1
substitution, 0 deletions, 0 insertions, 2 correct words and word accuracy
2/3; and the backtracking is exactly the reference backtracker with the fixed
precedence match > substitution > deletion > insertion. -/
theorem c4_substitution_scenario_and_precedence :
    ((CalculateAccuracyMetrics (("the cat sat").data) (("the dog sat").data)).substitutions = 1
      ∧ (CalculateAccuracyMetrics (("the cat sat").data) (("the dog sat").data)).deletions = 0
      ∧ (CalculateAccuracyMetrics (("the cat sat").data) (("the dog sat").data)).insertions = 0
      ∧ (CalculateAccuracyMetrics (("the cat sat").data) (("the dog sat").data)).correctWords = 2
      ∧ (CalculateAccuracyMetrics (("the cat sat").data) (("the dog sat").data)).wordAccuracy = 2 / 3)
    ∧ ∀ (orig trans : List Str) (i j : Nat),
      backtrackCounts orig trans i j = specPrecedenceBacktrack orig trans i j := by
  have hO : splitFields (normalizeText (("the cat sat").data))
      = [("the").data, ("cat").data, ("sat").data] := by decide
  have hT : splitFields (normalizeText (("the dog sat").data))
      = [("the").data, ("dog").data, ("sat").data] := by decide
  have hc : backtrackCounts [("the").data, ("cat").data, ("sat").data]
      [("the").data, ("dog").data, ("sat").data]
      ([("the").data, ("cat").data, ("sat").data] : List Str).length
      ([("the").data, ("dog").data, ("sat").data] : List Str).length
      = ⟨2, 1, 0, 0⟩ := by
    simp +decide [backtrackCounts.eq_def]
  refine ⟨⟨?_, ?_, ?_, ?_, ?_⟩, fun o t i j => backtrackCounts_eq_specPrecedence o t i j⟩
  · rw [(calc_counts _ _).2.1, hO, hT, hc]
  · rw [(calc_counts _ _).2.2.1, hO, hT, hc]
  · rw [(calc_counts _ _).2.2.2, hO, hT, hc]
  · rw [(calc_counts _ _).1, hO, hT, hc]
  · rw [calc_wordAccuracy_def, hO, hT, hc]
    norm_num

end Metrics


namespace Detect

/-! ## Claim theorem for the connected-component detector -/

/-- C5: for every input raster, every region emitted by
`findConnectedComponents` has width at least 5, height at least 8, width at
most `width/2` and height at most `height/4`; consequently its bounding box
satisfies `x1 < x2` and `y1 < y2` (with `x2 = x + width`, `y2 = y + height`). -/
theorem c5_component_size_invariant (img : Img) (r : LineBoundingBox)
    (hr : r ∈ findConnectedComponents img) :
    (5 ≤ r.width ∧ 8 ≤ r.height ∧ r.width ≤ (img.width : Int) / 2
      ∧ r.height ≤ (img.height : Int) / 4)
    ∧ (r.x < r.x + r.width ∧ r.y < r.y + r.height) := by
  have key : ∀ b ∈ findConnectedComponents img,
      5 ≤ b.width ∧ 8 ≤ b.height ∧ b.width ≤ (img.width : Int) / 2
        ∧ b.height ≤ (img.height : Int) / 4 := by
    unfold findConnectedComponents
    apply Metrics.foldl_inv
      (P := fun st : List (List Bool) × List LineBoundingBox =>
        ∀ b ∈ st.2, 5 ≤ b.width ∧ 8 ≤ b.height ∧ b.width ≤ (img.width : Int) / 2
          ∧ b.height ≤ (img.height : Int) / 4)
    · intro s y hs
      apply Metrics.foldl_inv
        (P := fun st : List (List Bool) × List LineBoundingBox =>
          ∀ b ∈ st.2, 5 ≤ b.width ∧ 8 ≤ b.height ∧ b.width ≤ (img.width : Int) / 2
            ∧ b.height ≤ (img.height : Int) / 4)
      · intro st x hst
        dsimp only
        split
        · split
          · rename_i hguard
            intro b hb
            rw [List.mem_append] at hb
            rcases hb with hb | hb
            · exact hst b hb
            · rw [List.mem_singleton] at hb
              subst hb
              exact hguard
          · exact hst
        · exact hst
      · exact hs
    · intro b hb
      simp at hb
  have hq := key r hr
  exact ⟨hq, by omega, by omega⟩

set_option maxRecDepth 4000 in
/-- Witness for C5: on the L-shaped test raster the detector emits exactly
the region `(0, 0, 5, 8)`, to which the invariant applies. -/
theorem c5_component_size_invariant_witness :
    (5 ≤ (⟨0, 0, 5, 8⟩ : LineBoundingBox).width
      ∧ 8 ≤ (⟨0, 0, 5, 8⟩ : LineBoundingBox).height
      ∧ (⟨0, 0, 5, 8⟩ : LineBoundingBox).width ≤ (witnessImg.width : Int) / 2
      ∧ (⟨0, 0, 5, 8⟩ : LineBoundingBox).height ≤ (witnessImg.height : Int) / 4)
    ∧ ((⟨0, 0, 5, 8⟩ : LineBoundingBox).x
        < (⟨0, 0, 5, 8⟩ : LineBoundingBox).x + (⟨0, 0, 5, 8⟩ : LineBoundingBox).width
      ∧ (⟨0, 0, 5, 8⟩ : LineBoundingBox).y
        < (⟨0, 0, 5, 8⟩ : LineBoundingBox).y + (⟨0, 0, 5, 8⟩ : LineBoundingBox).height) :=
  c5_component_size_invariant witnessImg ⟨0, 0, 5, 8⟩ (by
    have hcomp : findConnectedComponents witnessImg = [⟨0, 0, 5, 8⟩] := by
      unfold findConnectedComponents
      rw [show witnessImg.height = 32 from rfl, show witnessImg.width = 10 from rfl]
      rw [show List.range 32 =
        0 :: [1, 2, 3, 4, 5, 6, 7, 8, 9, 10, 11, 12, 13, 14, 15, 16,
          17, 18, 19, 20, 21, 22, 23, 24, 25, 26, 27, 28, 29, 30, 31]
        from by decide]
      rw [List.foldl_cons]
      rw [Metrics.foldl_fixed _ _ _ (by decide)]
      decide
    rw [hcomp]
    exact List.mem_singleton.mpr rfl)

end Detect

namespace Gcv

/-! ## Claim theorems for the hierarchical converter and the grouping stage -/

theorem suffix_append_left {α : Type _} {l b : List α} (h : l <:+ b)
    (a : List α) : l <:+ a ++ b :=
  h.trans (List.suffix_append a b)

/-- C7: in the markup produced by the encoder, every word token (a word with
at least one symbol) is followed by a single separating space — the span
itself ends in `</span>`, not in a space — except a word whose last symbol
carries a structural line break, whose trailing space is omitted. -/
theorem c7_word_trailing_space (w : Word) (n : Nat) (h : w.symbols ≠ []) :
    (endsWithLineBreak w = true → convertWord n w = wordSpanCore n w)
    ∧ (endsWithLineBreak w = false →
        convertWord n w = wordSpanCore n w ++ [' '])
    ∧ (("</span>").data) <:+ wordSpanCore n w := by
  refine ⟨?_, ?_, ?_⟩
  · intro hb
    simp [convertWord, hb]
  · intro hb
    simp [convertWord, h, hb]
  · unfold wordSpanCore
    repeat apply suffix_append_left
    exact List.suffix_rfl

/-- Witness for C7 at a one-symbol word with a `SPACE` break. -/
theorem c7_word_trailing_space_witness :
    (endsWithLineBreak ⟨none, ⟨[]⟩, [⟨some ⟨[], some ⟨("SPACE").data⟩⟩, ⟨[]⟩, ("a").data⟩]⟩ = true →
      convertWord 1 ⟨none, ⟨[]⟩, [⟨some ⟨[], some ⟨("SPACE").data⟩⟩, ⟨[]⟩, ("a").data⟩]⟩
        = wordSpanCore 1 ⟨none, ⟨[]⟩, [⟨some ⟨[], some ⟨("SPACE").data⟩⟩, ⟨[]⟩, ("a").data⟩]⟩)
    ∧ (endsWithLineBreak ⟨none, ⟨[]⟩, [⟨some ⟨[], some ⟨("SPACE").data⟩⟩, ⟨[]⟩, ("a").data⟩]⟩ = false →
      convertWord 1 ⟨none, ⟨[]⟩, [⟨some ⟨[], some ⟨("SPACE").data⟩⟩, ⟨[]⟩, ("a").data⟩]⟩
        = wordSpanCore 1 ⟨none, ⟨[]⟩, [⟨some ⟨[], some ⟨("SPACE").data⟩⟩, ⟨[]⟩, ("a").data⟩]⟩ ++ [' '])
    ∧ (("</span>").data)
      <:+ wordSpanCore 1 ⟨none, ⟨[]⟩, [⟨some ⟨[], some ⟨("SPACE").data⟩⟩, ⟨[]⟩, ("a").data⟩]⟩ :=
  c7_word_trailing_space ⟨none, ⟨[]⟩, [⟨some ⟨[], some ⟨("SPACE").data⟩⟩, ⟨[]⟩, ("a").data⟩]⟩ 1
    (by decide)

theorem foldl_min_le_init (f : Word → Int) :
    ∀ (l : List Word) (init : Int),
      l.foldl (fun acc w => min acc (f w)) init ≤ init := by
  intro l
  induction l with
  | nil => intro init; exact le_refl _
  | cons a l ih =>
    intro init
    exact le_trans (ih (min init (f a))) (min_le_left _ _)

theorem foldl_max_ge_init (f : Word → Int) :
    ∀ (l : List Word) (init : Int),
      init ≤ l.foldl (fun acc w => max acc (f w)) init := by
  intro l
  induction l with
  | nil => intro init; exact le_refl _
  | cons a l ih =>
    intro init
    exact le_trans (le_max_left _ _) (ih (max init (f a)))

/-- C6: the Words→Lines grouping stage is idempotent on already-grouped
input: a non-empty word list all of whose members mutually overlap
vertically within each candidate's half-height tolerance is grouped into
exactly one line that contains the same words ordered by X. -/
theorem c6_group_words_into_lines_idempotent (ws : List Word)
    (hne : ws ≠ [])
    (hov : ∀ w ∈ ws, ∀ w2 ∈ ws,
      wordTop w2 - (wordBottom w - wordTop w) / 2 ≤ wordBottom w
      ∧ wordTop w ≤ wordBottom w2 + (wordBottom w - wordTop w) / 2) :
    ∃ l : List Word, groupWordsIntoLines ws = [l] ∧ l.Perm ws
      ∧ l.Sorted byX := by
  have hoverlap : ∀ w ∈ ws, ∀ cur : List Word, cur ≠ [] →
      (∀ m ∈ cur, m ∈ ws) → overlapsLine w cur = true := by
    intro w hw cur hcne hcur
    have hhead : cur.headD default ∈ cur := by
      cases cur with
      | nil => exact absurd rfl hcne
      | cons a t => exact List.mem_cons_self a t
    have hh := hov w hw (cur.headD default) (hcur _ hhead)
    have h1 : lineTopOf cur ≤ wordTop (cur.headD default) :=
      foldl_min_le_init wordTop cur _
    have h2 : wordBottom (cur.headD default) ≤ lineBottomOf cur :=
      foldl_max_ge_init wordBottom cur _
    simp only [overlapsLine, decide_eq_true_eq]
    omega
  have key : ∀ l cur : List Word, cur ≠ [] → (∀ m ∈ cur, m ∈ ws) →
      (∀ m ∈ l, m ∈ ws) →
      List.foldl (fun lines w => insertWordIntoLines w lines) [cur] l
        = [cur ++ l] := by
    intro l
    induction l with
    | nil => intro cur _ _ _; simp
    | cons w l ih =>
      intro cur hcne hcur hl
      rw [List.foldl_cons]
      have hins : insertWordIntoLines w [cur] = [cur ++ [w]] := by
        unfold insertWordIntoLines
        rw [if_pos]
        simp only [Bool.and_eq_true, decide_eq_true_eq]
        exact ⟨hcne, hoverlap w (hl w (List.mem_cons_self w l)) cur hcne hcur⟩
      rw [hins, ih (cur ++ [w]) (by simp)
        (by
          intro m hm
          rw [List.mem_append] at hm
          rcases hm with hm | hm
          · exact hcur m hm
          · rw [List.mem_singleton] at hm
            subst hm
            exact hl m (List.mem_cons_self m l))
        (fun m hm => hl m (List.mem_cons_of_mem w hm))]
      simp
  have hperm : (List.insertionSort byYX ws).Perm ws := List.perm_insertionSort byYX ws
  unfold groupWordsIntoLines
  rw [if_neg hne]
  cases hs : List.insertionSort byYX ws with
  | nil =>
    exfalso
    rw [hs] at hperm
    exact hne hperm.symm.eq_nil
  | cons s0 srest =>
    rw [hs] at hperm
    have hs0 : s0 ∈ ws := hperm.subset (List.mem_cons_self s0 srest)
    have hsrest : ∀ m ∈ srest, m ∈ ws := fun m hm =>
      hperm.subset (List.mem_cons_of_mem s0 hm)
    refine ⟨List.insertionSort byX ([s0] ++ srest), ?_, ?_, ?_⟩
    · show List.map (fun l => List.insertionSort byX l)
        (List.foldl (fun lines w => insertWordIntoLines w lines) [] (s0 :: srest))
        = _
      rw [List.foldl_cons, show insertWordIntoLines s0 [] = [[s0]] from rfl,
        key srest [s0] (by simp) (by simpa using hs0) hsrest]
      simp
    · exact (List.perm_insertionSort byX _).trans (by simpa using hperm)
    · exact List.sorted_insertionSort byX _

/-- Witness for C6 at a concrete two-word single line. -/
theorem c6_group_words_into_lines_idempotent_witness :
    ∃ l : List Word,
      groupWordsIntoLines
        [⟨none, ⟨[⟨10, 2⟩, ⟨15, 2⟩, ⟨15, 9⟩, ⟨10, 9⟩]⟩, []⟩,
         ⟨none, ⟨[⟨1, 3⟩, ⟨5, 3⟩, ⟨5, 8⟩, ⟨1, 8⟩]⟩, []⟩] = [l]
      ∧ l.Perm
        [⟨none, ⟨[⟨10, 2⟩, ⟨15, 2⟩, ⟨15, 9⟩, ⟨10, 9⟩]⟩, []⟩,
         ⟨none, ⟨[⟨1, 3⟩, ⟨5, 3⟩, ⟨5, 8⟩, ⟨1, 8⟩]⟩, []⟩]
      ∧ l.Sorted byX :=
  c6_group_words_into_lines_idempotent
    [⟨none, ⟨[⟨10, 2⟩, ⟨15, 2⟩, ⟨15, 9⟩, ⟨10, 9⟩]⟩, []⟩,
     ⟨none, ⟨[⟨1, 3⟩, ⟨5, 3⟩, ⟨5, 8⟩, ⟨1, 8⟩]⟩, []⟩]
    (by decide) (by decide)

end Gcv

namespace Hocr

/-! ## Scanning lemmas for the title-attribute patterns -/

theorem dropLit_append : ∀ lit s : Str, dropLit (lit ++ s) lit = some s := by
  intro lit
  induction lit with
  | nil =>
    intro s
    rw [List.nil_append]
    cases s <;> rfl
  | cons c lit ih =>
    intro s
    simp only [List.cons_append, dropLit, if_pos rfl]
    exact ih s

theorem takeWhile_all {p : Char → Bool} :
    ∀ l : Str, l.all p = true → l.takeWhile p = l ∧ l.dropWhile p = [] := by
  intro l
  induction l with
  | nil => intro _; exact ⟨rfl, rfl⟩
  | cons c l ih =>
    intro h
    rw [List.all_cons, Bool.and_eq_true] at h
    obtain ⟨ih1, ih2⟩ := ih h.2
    constructor
    · rw [List.takeWhile_cons, if_pos h.1, ih1]
    · rw [List.dropWhile_cons, if_pos h.1, ih2]

theorem takeWhile_append_stop {p : Char → Bool} :
    ∀ (l : Str) (c : Char) (r : Str), l.all p = true → p c = false →
      (l ++ c :: r).takeWhile p = l ∧ (l ++ c :: r).dropWhile p = c :: r := by
  intro l
  induction l with
  | nil =>
    intro c r _ hc
    constructor
    · rw [List.nil_append, List.takeWhile_cons, if_neg (by simp [hc])]
    · rw [List.nil_append, List.dropWhile_cons, if_neg (by simp [hc])]
  | cons a l ih =>
    intro c r h hc
    rw [List.all_cons, Bool.and_eq_true] at h
    obtain ⟨ih1, ih2⟩ := ih c r h.2 hc
    constructor
    · rw [List.cons_append, List.takeWhile_cons, if_pos h.1, ih1]
    · rw [List.cons_append, List.dropWhile_cons, if_pos h.1, ih2]

/-! ## Decimal digit strings -/

theorem natDigits_all_digits : ∀ n : Nat, (natDigits n).all isDigitChar = true := by
  intro n
  induction n using natDigits.induct with
  | case1 n h =>
    rw [natDigits.eq_def, dif_pos h]
    interval_cases n <;> decide
  | case2 n h ih =>
    rw [natDigits.eq_def, dif_neg h]
    rw [List.all_append, Bool.and_eq_true]
    refine ⟨ih, ?_⟩
    have hm : n % 10 < 10 := Nat.mod_lt _ (by omega)
    set k := n % 10 with hk
    interval_cases k <;> decide

theorem natDigits_ne_nil : ∀ n : Nat, natDigits n ≠ [] := by
  intro n
  rw [natDigits.eq_def]
  split
  · simp
  · simp

theorem digitsToNat_append_one (l : Str) (c : Char) :
    digitsToNat (l ++ [c]) = 10 * digitsToNat l + digitVal c := by
  simp [digitsToNat, List.foldl_append]

theorem digitsToNat_natDigits : ∀ n : Nat, digitsToNat (natDigits n) = n := by
  intro n
  induction n using natDigits.induct with
  | case1 n h =>
    rw [natDigits.eq_def, dif_pos h]
    interval_cases n <;> decide
  | case2 n h ih =>
    rw [natDigits.eq_def, dif_neg h, digitsToNat_append_one, ih]
    have hm : n % 10 < 10 := Nat.mod_lt _ (by omega)
    have hd : digitVal (Char.ofNat (48 + n % 10)) = n % 10 := by
      set k := n % 10 with hk
      interval_cases k <;> decide
    rw [hd]
    omega

theorem isDigitChar_bounds {c : Char} (h : isDigitChar c = true) :
    48 ≤ c.toNat ∧ c.toNat ≤ 57 := by
  simpa [isDigitChar] using h

theorem isDigitChar_ne_x {c : Char} (h : isDigitChar c = true) : c ≠ 'x' := by
  intro he
  subst he
  exact absurd h (by decide)

theorem isDigitChar_not_space {c : Char} (h : isDigitChar c = true) :
    Metrics.isRe2Space c = false := by
  have hb := isDigitChar_bounds h
  simp only [Metrics.isRe2Space]
  simp only [Bool.or_eq_false_iff, decide_eq_false_iff_not]
  omega

theorem atoiDigits_natDigits (n : Nat) (h : n < 2 ^ 63) :
    atoiDigits (natDigits n) = Except.ok (n : Int) := by
  unfold atoiDigits
  rw [if_pos (by
    rw [Bool.and_eq_true]
    exact ⟨by simpa using natDigits_ne_nil n, natDigits_all_digits n⟩)]
  rw [digitsToNat_natDigits]
  rw [if_pos h]

end Hocr

namespace Hocr

/-! ## Canonical matches of the two title patterns -/

theorem head_digit_of_all {ds : Str} (hne : ds ≠ [])
    (hall : ds.all isDigitChar = true) :
    ∃ d tl, ds = d :: tl ∧ isDigitChar d = true ∧ tl.all isDigitChar = true := by
  cases ds with
  | nil => exact absurd rfl hne
  | cons d tl =>
    rw [List.all_cons, Bool.and_eq_true] at hall
    exact ⟨d, tl, rfl, hall.1, hall.2⟩

theorem takeWs_then_digits (ds : Str) (c : Char) (r : Str)
    (hall : ds.all isDigitChar = true) (hne : ds ≠ [])
    (hc : isDigitChar c = false) :
    takeWsPlus (' ' :: (ds ++ c :: r)) = some (ds ++ c :: r)
      ∧ takeDigitsPlus (ds ++ c :: r) = some (ds, c :: r) := by
  obtain ⟨d, tl, rfl, hd, htl⟩ := head_digit_of_all hne hall
  constructor
  · show (if Metrics.isRe2Space ' ' = true
      then some (((d :: tl) ++ c :: r).dropWhile Metrics.isRe2Space)
      else none) = _
    rw [if_pos (by decide), List.cons_append, List.dropWhile_cons,
      if_neg (by simp [isDigitChar_not_space hd])]
  · rw [List.cons_append]
    show (if isDigitChar d = true
      then some (d :: (tl ++ c :: r).takeWhile isDigitChar,
        (tl ++ c :: r).dropWhile isDigitChar)
      else none) = _
    rw [if_pos hd, (takeWhile_append_stop tl c r htl hc).1,
      (takeWhile_append_stop tl c r htl hc).2]

theorem takeWs_then_digits_end (ds : Str)
    (hall : ds.all isDigitChar = true) (hne : ds ≠ []) :
    takeWsPlus (' ' :: ds) = some ds ∧ takeDigitsPlus ds = some (ds, []) := by
  obtain ⟨d, tl, rfl, hd, htl⟩ := head_digit_of_all hne hall
  constructor
  · show (if Metrics.isRe2Space ' ' = true
      then some ((d :: tl).dropWhile Metrics.isRe2Space)
      else none) = _
    rw [if_pos (by decide), List.dropWhile_cons,
      if_neg (by simp [isDigitChar_not_space hd])]
  · show (if isDigitChar d = true
      then some (d :: tl.takeWhile isDigitChar, tl.dropWhile isDigitChar)
      else none) = _
    rw [if_pos hd, (takeWhile_all tl htl).1, (takeWhile_all tl htl).2]

theorem matchBBoxAt_canonical (d1 d2 d3 d4 : Str) (c : Char) (r : Str)
    (h1 : d1.all isDigitChar = true) (hn1 : d1 ≠ [])
    (h2 : d2.all isDigitChar = true) (hn2 : d2 ≠ [])
    (h3 : d3.all isDigitChar = true) (hn3 : d3 ≠ [])
    (h4 : d4.all isDigitChar = true) (hn4 : d4 ≠ [])
    (hc : isDigitChar c = false) :
    matchBBoxAt (litBBox ++ ' ' ::
        (d1 ++ ' ' :: (d2 ++ ' ' :: (d3 ++ ' ' :: (d4 ++ c :: r)))))
      = some (d1, d2, d3, d4) := by
  have e0 := dropLit_append litBBox
    (' ' :: (d1 ++ ' ' :: (d2 ++ ' ' :: (d3 ++ ' ' :: (d4 ++ c :: r)))))
  have e1 := takeWs_then_digits d1 ' '
    (d2 ++ ' ' :: (d3 ++ ' ' :: (d4 ++ c :: r))) h1 hn1 (by decide)
  have e2 := takeWs_then_digits d2 ' ' (d3 ++ ' ' :: (d4 ++ c :: r)) h2 hn2 (by decide)
  have e3 := takeWs_then_digits d3 ' ' (d4 ++ c :: r) h3 hn3 (by decide)
  have e4 := takeWs_then_digits d4 c r h4 hn4 hc
  simp [matchBBoxAt, e0, e1.1, e1.2, e2.1, e2.2, e3.1, e3.2, e4.1, e4.2]

theorem findBBox_of_match {s : Str} {r : Str × Str × Str × Str}
    (hne : s ≠ []) (h : matchBBoxAt s = some r) : findBBox s = some r := by
  cases s with
  | nil => exact absurd rfl hne
  | cons c rest => simp [findBBox, h]

theorem matchConfAt_canonical (ds : Str)
    (hall : ds.all isDigitChar = true) (hne : ds ≠ []) :
    matchConfAt (litWconf ++ ' ' :: ds) = some ds := by
  have e0 := dropLit_append litWconf (' ' :: ds)
  have e1 := takeWs_then_digits_end ds hall hne
  simp [matchConfAt, e0, e1.1, e1.2]

theorem matchConfAt_not_x {c : Char} (rest : Str) (h : ¬ c = 'x') :
    matchConfAt (c :: rest) = none := by
  have e : dropLit (c :: rest) litWconf = none := by
    show (if c = 'x' then dropLit rest (("_wconf").data) else none) = none
    rw [if_neg h]
  simp [matchConfAt, e]

theorem matchConfAt_x_space (rest : Str) :
    matchConfAt ('x' :: ' ' :: rest) = none := by
  have e : dropLit ('x' :: ' ' :: rest) litWconf = none := by
    show (if 'x' = 'x'
      then (if ' ' = '_' then dropLit rest (("wconf").data) else none)
      else none) = none
    rw [if_pos rfl, if_neg (by decide)]
  simp [matchConfAt, e]

theorem findConf_cons_none {c : Char} {rest : Str}
    (h : matchConfAt (c :: rest) = none) :
    findConf (c :: rest) = findConf rest := by
  simp [findConf, h]

theorem findConf_skip_no_x :
    ∀ pre : Str, (∀ c ∈ pre, ¬ c = 'x') → ∀ s : Str,
      findConf (pre ++ s) = findConf s := by
  intro pre
  induction pre with
  | nil => intro _ s; rw [List.nil_append]
  | cons c pre ih =>
    intro h s
    rw [List.cons_append,
      findConf_cons_none (matchConfAt_not_x _ (h c (List.mem_cons_self c pre))),
      ih (fun d hd => h d (List.mem_cons_of_mem c hd)) s]

theorem findConf_of_match_x {rest : Str} {r : Str}
    (h : matchConfAt ('x' :: rest) = some r) : findConf ('x' :: rest) = some r := by
  simp [findConf, h]

end Hocr

namespace Hocr

/-! ## Decoding the emitted title attribute -/

theorem intFmt_nonneg (n : Int) (h : 0 ≤ n) : intFmt n = natDigits n.toNat := by
  unfold intFmt
  rw [if_neg (by omega)]

theorem all_mem_of_all_digits {ds : Str} (h : ds.all isDigitChar = true) :
    ∀ c ∈ ds, isDigitChar c = true :=
  List.all_eq_true.mp h

theorem digits_no_x {ds : Str} (h : ds.all isDigitChar = true) :
    ∀ c ∈ ds, ¬ c = 'x' :=
  fun c hc => isDigitChar_ne_x (all_mem_of_all_digits h c hc)

theorem round0f_le_101 (q : ℚ) (h0 : 0 ≤ q) (h100 : q ≤ 100) :
    round0f q ≤ 101 := by
  have hfl : (⌊q⌋ : ℤ) ≤ 100 := by
    have := Int.floor_le_floor (α := ℚ) h100
    simpa using this
  have hfl0 : (0 : ℤ) ≤ ⌊q⌋ := Int.floor_nonneg.mpr h0
  show (if q - (⌊q⌋ : ℚ) < 1 / 2 then (⌊q⌋).toNat
    else if 1 / 2 < q - (⌊q⌋ : ℚ) then (⌊q⌋ + 1).toNat
    else if ⌊q⌋ % 2 = 0 then (⌊q⌋).toNat else (⌊q⌋ + 1).toNat) ≤ 101
  split
  · omega
  · split
    · omega
    · split
      · omega
      · omega

theorem parseFloatDigits_natDigits (m : Nat) (hm : (m : ℚ) ≤ maxFloat64Q) :
    parseFloatDigits (natDigits m) = Except.ok (m : ℚ) := by
  have hnotdot : (natDigits m).all (fun c => decide (c ≠ '.')) = true := by
    rw [List.all_eq_true]
    intro c hc
    have hd := all_mem_of_all_digits (natDigits_all_digits m) c hc
    simp only [decide_eq_true_eq]
    intro he
    subst he
    exact absurd hd (by decide)
  have htw := takeWhile_all (p := fun c => decide (c ≠ '.')) (natDigits m) hnotdot
  simp only [parseFloatDigits]
  rw [htw.1, List.drop_length]
  have hnil : digitsToNat ([] : Str) = 0 := rfl
  simp [digitsToNat_natDigits, hnil, hm]

theorem wordTitleStr_shape (w : HOCRWord) (hx1 : 0 ≤ w.bbox.x1)
    (hy1 : 0 ≤ w.bbox.y1) (hx2 : 0 ≤ w.bbox.x2) (hy2 : 0 ≤ w.bbox.y2) :
    wordTitleStr w = litBBox ++ ' ' ::
      (natDigits w.bbox.x1.toNat ++ ' ' :: (natDigits w.bbox.y1.toNat ++ ' ' ::
        (natDigits w.bbox.x2.toNat ++ ' ' :: (natDigits w.bbox.y2.toNat ++ ';' :: ' ' ::
          (litWconf ++ ' ' :: fmt0f w.confidence))))) := by
  unfold wordTitleStr bboxTitleStr
  rw [intFmt_nonneg _ hx1, intFmt_nonneg _ hy1, intFmt_nonneg _ hx2,
    intFmt_nonneg _ hy2]
  rw [show (("bbox ").data : Str) = litBBox ++ [' '] from rfl,
    show (("; x_wconf ").data : Str) = ';' :: ' ' :: (litWconf ++ [' ']) from rfl]
  simp [List.append_assoc]

theorem findBBox_title (w : HOCRWord) (hx1 : 0 ≤ w.bbox.x1)
    (hy1 : 0 ≤ w.bbox.y1) (hx2 : 0 ≤ w.bbox.x2) (hy2 : 0 ≤ w.bbox.y2) :
    findBBox (wordTitleStr w) = some (natDigits w.bbox.x1.toNat,
      natDigits w.bbox.y1.toNat, natDigits w.bbox.x2.toNat,
      natDigits w.bbox.y2.toNat) := by
  rw [wordTitleStr_shape w hx1 hy1 hx2 hy2]
  apply findBBox_of_match (by simp [litBBox])
  exact matchBBoxAt_canonical _ _ _ _ ';' _
    (natDigits_all_digits _) (natDigits_ne_nil _)
    (natDigits_all_digits _) (natDigits_ne_nil _)
    (natDigits_all_digits _) (natDigits_ne_nil _)
    (natDigits_all_digits _) (natDigits_ne_nil _)
    (by decide)

theorem findConf_canonical_title (d1 d2 d3 d4 cs : Str)
    (h1 : d1.all isDigitChar = true) (h2 : d2.all isDigitChar = true)
    (h3 : d3.all isDigitChar = true) (h4 : d4.all isDigitChar = true)
    (hcs : cs.all isDigitChar = true) (hncs : cs ≠ []) :
    findConf (litBBox ++ ' ' :: (d1 ++ ' ' :: (d2 ++ ' ' :: (d3 ++ ' ' ::
        (d4 ++ ';' :: ' ' :: (litWconf ++ ' ' :: cs))))))
      = some cs := by
  rw [show litBBox ++ ' ' :: (d1 ++ ' ' :: (d2 ++ ' ' :: (d3 ++ ' ' ::
        (d4 ++ ';' :: ' ' :: (litWconf ++ ' ' :: cs)))))
      = ['b', 'b', 'o'] ++ ('x' :: ' ' :: (d1 ++ ' ' :: (d2 ++ ' ' :: (d3 ++ ' ' ::
        (d4 ++ ';' :: ' ' :: (litWconf ++ ' ' :: cs))))))
    from by simp [litBBox]]
  rw [findConf_skip_no_x ['b', 'b', 'o'] (by decide),
    findConf_cons_none (matchConfAt_x_space _),
    show (' ' :: (d1 ++ ' ' :: (d2 ++ ' ' :: (d3 ++ ' ' ::
        (d4 ++ ';' :: ' ' :: (litWconf ++ ' ' :: cs))))))
      = [' '] ++ (d1 ++ ' ' :: (d2 ++ ' ' :: (d3 ++ ' ' ::
        (d4 ++ ';' :: ' ' :: (litWconf ++ ' ' :: cs)))))
    from rfl,
    findConf_skip_no_x [' '] (by decide),
    findConf_skip_no_x d1 (digits_no_x h1),
    show (' ' :: (d2 ++ ' ' :: (d3 ++ ' ' ::
        (d4 ++ ';' :: ' ' :: (litWconf ++ ' ' :: cs)))))
      = [' '] ++ (d2 ++ ' ' :: (d3 ++ ' ' ::
        (d4 ++ ';' :: ' ' :: (litWconf ++ ' ' :: cs))))
    from rfl,
    findConf_skip_no_x [' '] (by decide),
    findConf_skip_no_x d2 (digits_no_x h2),
    show (' ' :: (d3 ++ ' ' :: (d4 ++ ';' :: ' ' :: (litWconf ++ ' ' :: cs))))
      = [' '] ++ (d3 ++ ' ' :: (d4 ++ ';' :: ' ' :: (litWconf ++ ' ' :: cs)))
    from rfl,
    findConf_skip_no_x [' '] (by decide),
    findConf_skip_no_x d3 (digits_no_x h3),
    show (' ' :: (d4 ++ ';' :: ' ' :: (litWconf ++ ' ' :: cs)))
      = [' '] ++ (d4 ++ ';' :: ' ' :: (litWconf ++ ' ' :: cs))
    from rfl,
    findConf_skip_no_x [' '] (by decide),
    findConf_skip_no_x d4 (digits_no_x h4),
    show (';' :: ' ' :: (litWconf ++ ' ' :: cs))
      = [';', ' '] ++ (litWconf ++ ' ' :: cs)
    from rfl,
    findConf_skip_no_x [';', ' '] (by decide)]
  rw [show litWconf ++ ' ' :: cs = 'x' :: ((("_wconf").data) ++ ' ' :: cs) from rfl]
  exact findConf_of_match_x (matchConfAt_canonical cs hcs hncs)

theorem findConf_title (w : HOCRWord) (hx1 : 0 ≤ w.bbox.x1)
    (hy1 : 0 ≤ w.bbox.y1) (hx2 : 0 ≤ w.bbox.x2) (hy2 : 0 ≤ w.bbox.y2) :
    findConf (wordTitleStr w) = some (fmt0f w.confidence) := by
  rw [wordTitleStr_shape w hx1 hy1 hx2 hy2]
  exact findConf_canonical_title _ _ _ _ _
    (natDigits_all_digits _) (natDigits_all_digits _)
    (natDigits_all_digits _) (natDigits_all_digits _)
    (natDigits_all_digits _) (natDigits_ne_nil _)

end Hocr

namespace Hocr

/-! ## Character data: escaping and entity resolution invert each other -/

theorem attach_flatMap {α β : Type _} (l : List α) (f : α → List β) :
    l.attach.flatMap (fun c => f c.1) = l.flatMap f := by
  simp

theorem unescape_amp (E : Str) :
    xmlUnescape (("&amp;").data ++ E) = '&' :: xmlUnescape E := by
  conv_lhs => rw [xmlUnescape.eq_def]
  simp [entityCharOf, entityValue]

theorem unescape_lt (E : Str) :
    xmlUnescape (("&lt;").data ++ E) = '<' :: xmlUnescape E := by
  conv_lhs => rw [xmlUnescape.eq_def]
  simp [entityCharOf, entityValue]

theorem unescape_gt (E : Str) :
    xmlUnescape (("&gt;").data ++ E) = '>' :: xmlUnescape E := by
  conv_lhs => rw [xmlUnescape.eq_def]
  simp [entityCharOf, entityValue]

theorem unescape_39 (E : Str) :
    xmlUnescape (("&#39;").data ++ E) = sq :: xmlUnescape E := by
  conv_lhs => rw [xmlUnescape.eq_def]
  simp [entityCharOf, entityValue, digitsToNat, digitVal]
  rw [if_pos (by decide)]
  rfl

theorem unescape_34 (E : Str) :
    xmlUnescape (("&#34;").data ++ E) = dq :: xmlUnescape E := by
  conv_lhs => rw [xmlUnescape.eq_def]
  simp [entityCharOf, entityValue, digitsToNat, digitVal]
  rw [if_pos (by decide)]
  rfl

theorem unescape_plain (c : Char) (E : Str) (h : ¬ c = '&') :
    xmlUnescape (c :: E) = c :: xmlUnescape E := by
  conv_lhs => rw [xmlUnescape.eq_def]
  simp [h]

theorem xmlUnescape_htmlEscapeString : ∀ s : Str,
    xmlUnescape (htmlEscapeString s) = s := by
  intro s
  induction s with
  | nil =>
    rw [show htmlEscapeString [] = [] from by simp [htmlEscapeString]]
    rw [xmlUnescape.eq_def]
  | cons c rest ih =>
    show xmlUnescape (htmlEscapeChar c ++ htmlEscapeString rest) = c :: rest
    by_cases h1 : c = '&'
    · subst h1
      rw [show htmlEscapeChar '&' = ("&amp;").data from rfl, unescape_amp, ih]
    · by_cases h2 : c = sq
      · subst h2
        rw [show htmlEscapeChar sq = ("&#39;").data from by
            unfold htmlEscapeChar
            rw [if_neg (by decide), if_pos rfl],
          unescape_39, ih]
      · by_cases h3 : c = '<'
        · subst h3
          rw [show htmlEscapeChar '<' = ("&lt;").data from rfl, unescape_lt, ih]
        · by_cases h4 : c = '>'
          · subst h4
            rw [show htmlEscapeChar '>' = ("&gt;").data from rfl, unescape_gt, ih]
          · by_cases h5 : c = '"'
            · subst h5
              rw [show htmlEscapeChar '"' = ("&#34;").data from by
                  unfold htmlEscapeChar
                  rw [if_neg (by decide), if_neg (by decide), if_neg (by decide),
                    if_neg (by decide), if_pos rfl],
                unescape_34, ih, show dq = '"' from by decide]
            · rw [show htmlEscapeChar c = [c] from by
                  unfold htmlEscapeChar
                  rw [if_neg h1, if_neg h2, if_neg h3, if_neg h4, if_neg h5],
                List.singleton_append, unescape_plain c _ h1, ih]

/-! ## One step of the decoding traversal -/

theorem traverse_step (nm : Str) (ats : List (Str × Str)) (ct : Str)
    (children : List XMLElement) (cur : Str) :
    traverseElementsWithLineContext ⟨nm, ats, ct, children⟩ cur
      = (if isWordElement ⟨nm, ats, ct, children⟩ then
            match parseWordElement ⟨nm, ats, ct, children⟩ with
            | Except.ok w =>
              if w.id ≠ [] then
                [{ w with lineID := if isLineElement ⟨nm, ats, ct, children⟩
                    then (firstIdValue ⟨nm, ats, ct, children⟩).getD cur else cur }]
              else []
            | Except.error _ => []
          else [])
        ++ children.flatMap (fun c => traverseElementsWithLineContext c
            (if isLineElement ⟨nm, ats, ct, children⟩
              then (firstIdValue ⟨nm, ats, ct, children⟩).getD cur else cur)) := by
  rw [traverseElementsWithLineContext.eq_def]
  simp

end Hocr

namespace Hocr

/-! ## Decoding the encoded elements -/

theorem parseTitleAttribute_wordTitle (w w0 : HOCRWord) (hv : ValidHOCRWord w) :
    parseTitleAttribute (wordTitleStr w) w0
      = Except.ok { w0 with
          bbox := w.bbox
          confidence := ((round0f w.confidence : ℕ) : ℚ) } := by
  obtain ⟨-, -, hx1, hx12, hx2b, hy1, hy12, hy2b, hc0, hc100, -⟩ := hv
  have hx2 : 0 ≤ w.bbox.x2 := by omega
  have hy2 : 0 ≤ w.bbox.y2 := by omega
  have hb := findBBox_title w hx1 hy1 hx2 hy2
  have hcg := findConf_title w hx1 hy1 hx2 hy2
  have e1 : atoiDigits (natDigits w.bbox.x1.toNat)
      = Except.ok ((w.bbox.x1.toNat : Int)) := atoiDigits_natDigits _ (by omega)
  have e2 : atoiDigits (natDigits w.bbox.y1.toNat)
      = Except.ok ((w.bbox.y1.toNat : Int)) := atoiDigits_natDigits _ (by omega)
  have e3 : atoiDigits (natDigits w.bbox.x2.toNat)
      = Except.ok ((w.bbox.x2.toNat : Int)) := atoiDigits_natDigits _ (by omega)
  have e4 : atoiDigits (natDigits w.bbox.y2.toNat)
      = Except.ok ((w.bbox.y2.toNat : Int)) := atoiDigits_natDigits _ (by omega)
  have h101 : ((round0f w.confidence : ℕ) : ℚ) ≤ maxFloat64Q := by
    have hr := round0f_le_101 w.confidence hc0 hc100
    have hr2 : ((round0f w.confidence : ℕ) : ℚ) ≤ 101 := by exact_mod_cast hr
    refine le_trans hr2 ?_
    norm_num [maxFloat64Q]
  have ec : parseFloatDigits (fmt0f w.confidence)
      = Except.ok ((round0f w.confidence : ℕ) : ℚ) := by
    rw [show fmt0f w.confidence = natDigits (round0f w.confidence) from rfl]
    exact parseFloatDigits_natDigits _ h101
  simp [parseTitleAttribute, hb, hcg, e1, e2, e3, e4, ec,
    Int.toNat_of_nonneg hx1, Int.toNat_of_nonneg hy1,
    Int.toNat_of_nonneg hx2, Int.toNat_of_nonneg hy2]
  rfl


theorem isWordElement_wordElem (w : HOCRWord) :
    isWordElement (wordElem w) = true := rfl

theorem isLineElement_wordElem (w : HOCRWord) :
    isLineElement (wordElem w) = false := rfl

theorem isWordElement_lineElem (l : HOCRLine) :
    isWordElement (lineElem l) = false := rfl

theorem isLineElement_lineElem (l : HOCRLine) :
    isLineElement (lineElem l) = true := rfl

theorem firstIdValue_lineElem (l : HOCRLine) :
    firstIdValue (lineElem l) = some l.id := rfl

theorem applyWordAttrs_wordElem (w : HOCRWord) (hv : ValidHOCRWord w) :
    applyWordAttrs (wordElem w).attrs emptyWord
      = Except.ok
          { id := w.id
            text := []
            bbox := w.bbox
            confidence := ((round0f w.confidence : ℕ) : ℚ)
            lineID := [] } := by
  have et := parseTitleAttribute_wordTitle w { emptyWord with id := w.id } hv
  show applyWordAttrs [(classAttr, ("ocrx_word").data), (idAttr, w.id),
    (titleAttr, wordTitleStr w)] emptyWord = _
  simp +decide [applyWordAttrs, classAttr, idAttr, titleAttr] at et ⊢
  rw [et]
  simp [applyWordAttrs, emptyWord]

theorem parseWordElement_wordElem (w : HOCRWord) (hv : ValidHOCRWord w) :
    parseWordElement (wordElem w) = Except.ok
      { id := w.id
        text := w.text
        bbox := w.bbox
        confidence := ((round0f w.confidence : ℕ) : ℚ)
        lineID := [] } := by
  have ha := applyWordAttrs_wordElem w hv
  unfold parseWordElement
  rw [ha]
  rw [show (wordElem w).content = xmlUnescape (htmlEscapeString w.text) from rfl]
  rw [xmlUnescape_htmlEscapeString, hv.2.1]

theorem traverse_wordElem (w : HOCRWord) (hv : ValidHOCRWord w) (ctx : Str) :
    traverseElementsWithLineContext (wordElem w) ctx
      = [{ id := w.id
           text := w.text
           bbox := w.bbox
           confidence := ((round0f w.confidence : ℕ) : ℚ)
           lineID := ctx }] := by
  have hp := parseWordElement_wordElem w hv
  show traverseElementsWithLineContext ⟨("span").data,
    [(classAttr, ("ocrx_word").data), (idAttr, w.id), (titleAttr, wordTitleStr w)],
    xmlUnescape (htmlEscapeString w.text), []⟩ ctx = _
  rw [traverse_step]
  rw [show (isWordElement ⟨("span").data,
      [(classAttr, ("ocrx_word").data), (idAttr, w.id), (titleAttr, wordTitleStr w)],
      xmlUnescape (htmlEscapeString w.text), []⟩) = true from
    isWordElement_wordElem w]
  rw [show (isLineElement ⟨("span").data,
      [(classAttr, ("ocrx_word").data), (idAttr, w.id), (titleAttr, wordTitleStr w)],
      xmlUnescape (htmlEscapeString w.text), []⟩) = false from
    isLineElement_wordElem w]
  rw [show (parseWordElement ⟨("span").data,
      [(classAttr, ("ocrx_word").data), (idAttr, w.id), (titleAttr, wordTitleStr w)],
      xmlUnescape (htmlEscapeString w.text), []⟩)
    = parseWordElement (wordElem w) from rfl, hp]
  simp [hv.1]

theorem traverse_lineElem (l : HOCRLine) (hv : ∀ w ∈ l.words, ValidHOCRWord w)
    (cur : Str) :
    traverseElementsWithLineContext (lineElem l) cur
      = l.words.map (fun w =>
          { id := w.id
            text := w.text
            bbox := w.bbox
            confidence := ((round0f w.confidence : ℕ) : ℚ)
            lineID := l.id }) := by
  show traverseElementsWithLineContext ⟨("span").data,
    [(classAttr, ("ocr_line").data), (idAttr, l.id), (titleAttr, bboxTitleStr l.bbox)],
    List.replicate l.words.length ' ', l.words.map wordElem⟩ cur = _
  rw [traverse_step]
  rw [show (isWordElement ⟨("span").data,
      [(classAttr, ("ocr_line").data), (idAttr, l.id), (titleAttr, bboxTitleStr l.bbox)],
      List.replicate l.words.length ' ', l.words.map wordElem⟩) = false from
    isWordElement_lineElem l]
  rw [show (isLineElement ⟨("span").data,
      [(classAttr, ("ocr_line").data), (idAttr, l.id), (titleAttr, bboxTitleStr l.bbox)],
      List.replicate l.words.length ' ', l.words.map wordElem⟩) = true from
    isLineElement_lineElem l]
  rw [show (firstIdValue ⟨("span").data,
      [(classAttr, ("ocr_line").data), (idAttr, l.id), (titleAttr, bboxTitleStr l.bbox)],
      List.replicate l.words.length ' ', l.words.map wordElem⟩) = some l.id from
    firstIdValue_lineElem l]
  simp only [if_true, if_false, Bool.false_eq_true, Option.getD_some, List.nil_append]
  revert hv
  induction l.words with
  | nil => intro _; rfl
  | cons w ws ih =>
    intro hws
    rw [List.map_cons, List.flatMap_cons,
      traverse_wordElem w (hws w (List.mem_cons_self w ws)) l.id,
      List.map_cons, ih (fun m hm => hws m (List.mem_cons_of_mem w hm)),
      List.singleton_append]

theorem traverse_step_plain (nm : Str) (ats : List (Str × Str)) (ct : Str)
    (children : List XMLElement) (cur : Str)
    (hw : isWordElement ⟨nm, ats, ct, children⟩ = false)
    (hl : isLineElement ⟨nm, ats, ct, children⟩ = false) :
    traverseElementsWithLineContext ⟨nm, ats, ct, children⟩ cur
      = children.flatMap (fun c => traverseElementsWithLineContext c cur) := by
  rw [traverse_step, hw, hl]
  simp

theorem traverse_headElem (cur : Str) :
    traverseElementsWithLineContext headElem cur = [] := by
  unfold headElem
  rw [traverse_step_plain _ _ _ _ _ (by rfl) (by rfl)]
  simp only [List.flatMap_cons, List.flatMap_nil]
  rw [traverse_step_plain _ _ _ _ _ (by rfl) (by rfl),
    traverse_step_plain _ _ _ _ _ (by rfl) (by rfl),
    traverse_step_plain _ _ _ _ _ (by rfl) (by rfl),
    traverse_step_plain _ _ _ _ _ (by rfl) (by rfl)]
  simp

theorem traverse_encodeDoc (lines : List HOCRLine) (W H : Int)
    (hv : ∀ l ∈ lines, ∀ w ∈ l.words, ValidHOCRWord w) :
    traverseElementsWithLineContext (encodeDoc lines W H) []
      = lines.flatMap (fun l => l.words.map (fun w =>
          { id := w.id
            text := w.text
            bbox := w.bbox
            confidence := ((round0f w.confidence : ℕ) : ℚ)
            lineID := l.id })) := by
  unfold encodeDoc
  rw [traverse_step_plain _ _ _ _ _ (by rfl) (by rfl)]
  simp only [List.flatMap_cons, List.flatMap_nil]
  rw [traverse_headElem]
  unfold bodyElem
  rw [traverse_step_plain _ _ _ _ _ (by rfl) (by rfl)]
  simp only [List.flatMap_cons, List.flatMap_nil]
  unfold pageElem
  rw [traverse_step_plain _ _ _ _ _ (by rfl) (by rfl)]
  simp only [List.nil_append, List.append_nil]
  revert hv
  induction lines with
  | nil => intro _; rfl
  | cons l ls ih =>
    intro hv
    rw [List.map_cons, List.flatMap_cons, List.flatMap_cons,
      traverse_lineElem l (hv l (List.mem_cons_self l ls)) [],
      ih (fun m hm => hv m (List.mem_cons_of_mem l hm))]

theorem traverse_encodeDoc_decodedWord (lines : List HOCRLine) (W H : Int)
    (hv : ∀ l ∈ lines, ∀ w ∈ l.words, ValidHOCRWord w) :
    traverseElementsWithLineContext (encodeDoc lines W H) []
      = lines.flatMap (fun l => l.words.map (decodedWord l.id)) := by
  rw [traverse_encodeDoc lines W H hv]
  rfl

theorem flatLineIndexFrom_shift (k : Nat) (lines : List HOCRLine) :
    flatLineIndexFrom (k + 1) lines
      = (flatLineIndexFrom k lines).map (fun i => i + 1) := by
  induction lines generalizing k with
  | nil => rfl
  | cons l rest ih =>
    show List.replicate l.words.length (k + 1) ++ flatLineIndexFrom (k + 2) rest
      = (List.replicate l.words.length k ++ flatLineIndexFrom (k + 1) rest).map
          (fun i => i + 1)
    rw [List.map_append, List.map_replicate, ih]

theorem mem_flatLineIndexFrom (k : Nat) (lines : List HOCRLine) (i : Nat)
    (h : i ∈ flatLineIndexFrom k lines) : k ≤ i ∧ i < k + lines.length := by
  induction lines generalizing k with
  | nil => simp [flatLineIndexFrom] at h
  | cons l rest ih =>
    have h' : i ∈ List.replicate l.words.length k ++ flatLineIndexFrom (k + 1) rest := h
    rw [List.mem_append, List.mem_replicate] at h'
    rcases h' with h' | h'
    · simp only [List.length_cons]
      omega
    · have := ih (k + 1) h'
      simp only [List.length_cons]
      omega

theorem decoded_lineID_map (lines : List HOCRLine) :
    (lines.flatMap (fun l => l.words.map (decodedWord l.id))).map (fun w => w.lineID)
      = (flatLineIndex lines).map (fun i => (lines.getD i default).id) := by
  unfold flatLineIndex
  induction lines with
  | nil => rfl
  | cons l rest ih =>
    rw [List.flatMap_cons, List.map_append, List.map_map,
      show flatLineIndexFrom 0 (l :: rest)
        = List.replicate l.words.length 0 ++ flatLineIndexFrom 1 rest from rfl,
      List.map_append, List.map_replicate]
    congr 1
    · rw [show ((fun w => w.lineID) ∘ decodedWord l.id) = (fun t => l.id) from
        funext (fun t => rfl)]
      exact List.map_const l.words l.id
    · rw [flatLineIndexFrom_shift, List.map_map,
        show ((fun i => ((l :: rest).getD i default).id) ∘ (fun i => i + 1))
          = (fun i => (rest.getD i default).id) from
          funext (fun i => by rw [Function.comp_apply, List.getD_cons_succ]),
        ih]

theorem flatLineIndex_length (lines : List HOCRLine) :
    (flatLineIndex lines).length
      = (lines.flatMap (fun l => l.words.map (decodedWord l.id))).length := by
  have h := congrArg List.length (decoded_lineID_map lines)
  rw [List.length_map, List.length_map] at h
  exact h.symm

theorem lineId_getD_inj (lines : List HOCRLine)
    (hnd : (lines.map fun l => l.id).Nodup) (a b : Nat)
    (ha : a < lines.length) (hb : b < lines.length) :
    (lines.getD a default).id = (lines.getD b default).id ↔ a = b := by
  have ha' : a < (lines.map fun l => l.id).length := by simpa using ha
  have hb' : b < (lines.map fun l => l.id).length := by simpa using hb
  have hma : (lines.map fun l => l.id).get ⟨a, ha'⟩ = (lines.getD a default).id := by
    rw [List.get_eq_getElem, List.getElem_map, List.getD_eq_getElem _ _ ha]
  have hmb : (lines.map fun l => l.id).get ⟨b, hb'⟩ = (lines.getD b default).id := by
    rw [List.get_eq_getElem, List.getElem_map, List.getD_eq_getElem _ _ hb]
  constructor
  · intro he
    have hg := List.Nodup.get_inj_iff hnd (i := ⟨a, ha'⟩) (j := ⟨b, hb'⟩)
    have hab := hg.mp (by rw [hma, hmb, he])
    exact congrArg Fin.val hab
  · intro he
    rw [he]

theorem decoded_partition (lines : List HOCRLine)
    (hnd : (lines.map fun l => l.id).Nodup) (i j : Nat)
    (hi : i < (lines.flatMap (fun l => l.words.map (decodedWord l.id))).length)
    (hj : j < (lines.flatMap (fun l => l.words.map (decodedWord l.id))).length) :
    ((lines.flatMap (fun l => l.words.map (decodedWord l.id))).getD i emptyWord).lineID
        = ((lines.flatMap (fun l => l.words.map (decodedWord l.id))).getD j emptyWord).lineID
      ↔ (flatLineIndex lines).getD i 0 = (flatLineIndex lines).getD j 0 := by
  have hlen := flatLineIndex_length lines
  have hi' : i < (flatLineIndex lines).length := by rw [hlen]; exact hi
  have hj' : j < (flatLineIndex lines).length := by rw [hlen]; exact hj
  have hm := decoded_lineID_map lines
  have h1 : ∀ a : Nat, ∀ ha : a < (lines.flatMap (fun l => l.words.map (decodedWord l.id))).length,
      ∀ ha' : a < (flatLineIndex lines).length,
      ((lines.flatMap (fun l => l.words.map (decodedWord l.id))).getD a emptyWord).lineID
        = (lines.getD ((flatLineIndex lines).getD a 0) default).id := by
    intro a ha ha'
    have e1 : ((lines.flatMap (fun l => l.words.map (decodedWord l.id))).map
          (fun w => w.lineID)).getD a []
        = ((lines.flatMap (fun l => l.words.map (decodedWord l.id))).getD a emptyWord).lineID := by
      rw [List.getD_eq_getElem _ _ (by simpa using ha), List.getElem_map,
        List.getD_eq_getElem _ _ ha]
    have e2 : (((flatLineIndex lines).map (fun k => (lines.getD k default).id)).getD a [])
        = (lines.getD ((flatLineIndex lines).getD a 0) default).id := by
      rw [List.getD_eq_getElem _ _ (by simpa using ha'), List.getElem_map,
        List.getD_eq_getElem _ _ ha']
    rw [← e1, hm, e2]
  have hbi : (flatLineIndex lines).getD i 0 < lines.length := by
    have hmem : (flatLineIndex lines).getD i 0 ∈ flatLineIndex lines := by
      rw [List.getD_eq_getElem _ _ hi']
      exact List.getElem_mem hi'
    have := mem_flatLineIndexFrom 0 lines _ hmem
    omega
  have hbj : (flatLineIndex lines).getD j 0 < lines.length := by
    have hmem : (flatLineIndex lines).getD j 0 ∈ flatLineIndex lines := by
      rw [List.getD_eq_getElem _ _ hj']
      exact List.getElem_mem hj'
    have := mem_flatLineIndexFrom 0 lines _ hmem
    omega
  rw [h1 i hi hi', h1 j hj hj']
  exact lineId_getD_inj lines hnd _ _ hbi hbj

theorem parseTitleAttribute_no_match (title : Str) (w : HOCRWord)
    (hb : findBBox title = none) (hc : findConf title = none) :
    parseTitleAttribute title w = Except.ok w := by
  unfold parseTitleAttribute
  rw [hb, hc]
  rfl

set_option maxRecDepth 20000 in
theorem parseTitleAttribute_no_bbox (title : Str) (w r : HOCRWord)
    (hb : findBBox title = none)
    (hok : parseTitleAttribute title w = Except.ok r) : r.bbox = w.bbox := by
  unfold parseTitleAttribute at hok
  rw [hb] at hok
  cases hfc : findConf title with
  | none =>
    rw [hfc] at hok
    rw [← Except.ok.inj hok]
  | some cs =>
    rw [hfc] at hok
    have h2 : Except.bind (parseFloatDigits cs) (fun conf =>
        Except.ok (⟨w.id, w.text, w.bbox, conf, w.lineID⟩ : HOCRWord))
      = Except.ok r := hok
    cases hpf : parseFloatDigits cs with
    | error e =>
      rw [hpf] at h2
      exact Except.noConfusion h2
    | ok v =>
      rw [hpf] at h2
      rw [← Except.ok.inj h2]

theorem parseTitleAttribute_no_conf (title : Str) (w r : HOCRWord)
    (hc : findConf title = none)
    (hok : parseTitleAttribute title w = Except.ok r) :
    r.confidence = w.confidence := by
  unfold parseTitleAttribute at hok
  cases hfb : findBBox title with
  | none =>
    rw [hfb, hc] at hok
    rw [← Except.ok.inj hok]
  | some q =>
    obtain ⟨a, b, c, d⟩ := q
    rw [hfb] at hok
    have h2 : Except.bind (atoiDigits a) (fun x1 =>
        Except.bind (atoiDigits b) (fun y1 =>
        Except.bind (atoiDigits c) (fun x2 =>
        Except.bind (atoiDigits d) (fun y2 =>
          match findConf title with
          | some cs => Except.bind (parseFloatDigits cs) (fun conf =>
              Except.ok (⟨w.id, w.text, ⟨x1, y1, x2, y2⟩, conf, w.lineID⟩ : HOCRWord))
          | none =>
            Except.ok (⟨w.id, w.text, ⟨x1, y1, x2, y2⟩, w.confidence,
              w.lineID⟩ : HOCRWord))))) = Except.ok r := hok
    cases h1 : atoiDigits a with
    | error e =>
      rw [h1] at h2
      exact Except.noConfusion h2
    | ok x1 =>
    rw [h1] at h2
    cases hb2 : atoiDigits b with
    | error e =>
      rw [hb2] at h2
      exact Except.noConfusion h2
    | ok y1 =>
    rw [hb2] at h2
    cases h3 : atoiDigits c with
    | error e =>
      rw [h3] at h2
      exact Except.noConfusion h2
    | ok x2 =>
    rw [h3] at h2
    cases h4 : atoiDigits d with
    | error e =>
      rw [h4] at h2
      exact Except.noConfusion h2
    | ok y2 =>
    rw [h4, hc] at h2
    rw [← Except.ok.inj h2]

theorem applyWordAttrs_no_pattern (wid title : Str)
    (hb : findBBox title = none) (hc : findConf title = none) :
    applyWordAttrs [(classAttr, ("ocrx_word").data), (idAttr, wid), (titleAttr, title)]
        emptyWord
      = Except.ok { emptyWord with id := wid } := by
  have ht := parseTitleAttribute_no_match title { emptyWord with id := wid } hb hc
  simp +decide [applyWordAttrs, classAttr, idAttr, titleAttr] at ht ⊢
  rw [ht]

theorem parseWordElement_no_pattern (wid title ct : Str)
    (hb : findBBox title = none) (hc : findConf title = none) :
    parseWordElement
        ⟨("span").data,
          [(classAttr, ("ocrx_word").data), (idAttr, wid), (titleAttr, title)], ct, []⟩
      = Except.ok ⟨wid, Metrics.trimSpace ct, ⟨0, 0, 0, 0⟩, 0, []⟩ := by
  have ha := applyWordAttrs_no_pattern wid title hb hc
  unfold parseWordElement
  simp only [XMLElement.attrs, XMLElement.content]
  rw [ha]
  rfl

theorem traverse_no_pattern_word (wid title ct cur : Str) (hid : wid ≠ [])
    (hb : findBBox title = none) (hc : findConf title = none) :
    traverseElementsWithLineContext
        ⟨("span").data,
          [(classAttr, ("ocrx_word").data), (idAttr, wid), (titleAttr, title)], ct, []⟩
        cur
      = [⟨wid, Metrics.trimSpace ct, ⟨0, 0, 0, 0⟩, 0, cur⟩] := by
  have hp := parseWordElement_no_pattern wid title ct hb hc
  rw [traverse_step]
  rw [show (isWordElement ⟨("span").data,
      [(classAttr, ("ocrx_word").data), (idAttr, wid), (titleAttr, title)], ct, []⟩)
    = true from rfl]
  rw [show (isLineElement ⟨("span").data,
      [(classAttr, ("ocrx_word").data), (idAttr, wid), (titleAttr, title)], ct, []⟩)
    = false from rfl]
  rw [hp]
  simp [hid]

/-- C8: The decoder returns an error for every non-well-formed markup
document (an `encoding/xml` decode failure is wrapped and propagated, no
partial word list is produced); for well-formed markup, a word element whose
title attribute lacks the bbox pattern keeps its zero bounding box whatever
else the title parse does, one lacking the confidence pattern keeps its zero
confidence, and a word element lacking both patterns is decoded without error
into a word with the zero box `(0,0,0,0)` and confidence `0`. -/
theorem c8_malformed_error_and_missing_patterns :
    (∀ e : Str, ParseHOCRWords (Except.error e)
        = Except.error ((("failed to parse XML: ").data) ++ e))
    ∧ (∀ (title : Str) (w r : HOCRWord), findBBox title = none →
        parseTitleAttribute title w = Except.ok r → r.bbox = w.bbox)
    ∧ (∀ (title : Str) (w r : HOCRWord), findConf title = none →
        parseTitleAttribute title w = Except.ok r → r.confidence = w.confidence)
    ∧ (∀ wid title ct : Str, wid ≠ [] →
        findBBox title = none → findConf title = none →
        ParseHOCRWords (Except.ok
            ⟨("span").data,
              [(classAttr, ("ocrx_word").data), (idAttr, wid), (titleAttr, title)],
              ct, []⟩)
          = Except.ok [⟨wid, Metrics.trimSpace ct, ⟨0, 0, 0, 0⟩, 0, []⟩]) := by
  refine ⟨fun e => rfl, parseTitleAttribute_no_bbox, parseTitleAttribute_no_conf, ?_⟩
  intro wid title ct hid hb hc
  show Except.ok (traverseElementsWithLineContext _ []) = _
  rw [traverse_no_pattern_word wid title ct [] hid hb hc]

theorem c8_malformed_error_and_missing_patterns_witness :
    (("w1").data ≠ ([] : Str)
      ∧ findBBox (("nothing here").data) = none
      ∧ findConf (("nothing here").data) = none)
    ∧ ParseHOCRWords (Except.ok
          ⟨("span").data,
            [(classAttr, ("ocrx_word").data), (idAttr, ("w1").data),
              (titleAttr, ("nothing here").data)],
            (" hi ").data, []⟩)
        = Except.ok [⟨("w1").data, Metrics.trimSpace ((" hi ").data),
            ⟨0, 0, 0, 0⟩, 0, []⟩] :=
  ⟨⟨by decide, by decide, by decide⟩,
    c8_malformed_error_and_missing_patterns.2.2.2 (("w1").data)
      (("nothing here").data) ((" hi ").data) (by decide) (by decide) (by decide)⟩

theorem traverse_empty_id_word (nm : Str) (ats : List (Str × Str)) (ct cur : Str)
    (w : HOCRWord) (hw : isWordElement ⟨nm, ats, ct, []⟩ = true)
    (hp : parseWordElement ⟨nm, ats, ct, []⟩ = Except.ok w) (hid : w.id = []) :
    traverseElementsWithLineContext ⟨nm, ats, ct, []⟩ cur = [] := by
  rw [traverse_step, hw, hp]
  simp [hid]

theorem traverse_error_word (nm : Str) (ats : List (Str × Str)) (ct cur err : Str)
    (hp : parseWordElement ⟨nm, ats, ct, []⟩ = Except.error err) :
    traverseElementsWithLineContext ⟨nm, ats, ct, []⟩ cur = [] := by
  rw [traverse_step, hp]
  simp

set_option maxRecDepth 20000 in
theorem parseTitleAttribute_bad_bbox_number (title : Str) (w : HOCRWord)
    (a b c d e : Str) (hfb : findBBox title = some (a, b, c, d))
    (ha : atoiDigits a = Except.error e) :
    parseTitleAttribute title w = Except.error e := by
  unfold parseTitleAttribute
  rw [hfb]
  show Except.bind (atoiDigits a) _ = Except.error e
  rw [ha]
  rfl

set_option maxRecDepth 20000 in
theorem parseTitleAttribute_bad_conf_number (title : Str) (w : HOCRWord)
    (cs e : Str) (hfb : findBBox title = none) (hfc : findConf title = some cs)
    (hpf : parseFloatDigits cs = Except.error e) :
    parseTitleAttribute title w = Except.error e := by
  unfold parseTitleAttribute
  rw [hfb, hfc]
  show Except.bind (parseFloatDigits cs) _ = Except.error e
  rw [hpf]
  rfl

theorem applyWordAttrs_title_error (wid title err : Str)
    (ht : parseTitleAttribute title { emptyWord with id := wid }
      = Except.error err) :
    applyWordAttrs [(classAttr, ("ocrx_word").data), (idAttr, wid), (titleAttr, title)]
        emptyWord
      = Except.error err := by
  simp +decide [applyWordAttrs, classAttr, idAttr, titleAttr] at ht ⊢
  rw [ht]

theorem parseWordElement_title_error (wid title ct err : Str)
    (ht : parseTitleAttribute title { emptyWord with id := wid }
      = Except.error err) :
    parseWordElement
        ⟨("span").data,
          [(classAttr, ("ocrx_word").data), (idAttr, wid), (titleAttr, title)], ct, []⟩
      = Except.error err := by
  have ha := applyWordAttrs_title_error wid title err ht
  unfold parseWordElement
  simp only [XMLElement.attrs, XMLElement.content]
  rw [ha]

/-- C10: On a well-formed document the decoder never fails: `ParseHOCRWords`
of a decoded tree is always `ok`.  A word-class element whose parsed id is
empty (in particular one with no id attribute), or whose title attribute
carries a bbox pattern with a number out of `Atoi` range or a confidence
pattern with a number out of `ParseFloat` range (making `parseWordElement`
error), contributes nothing to the output word list: it is silently omitted. -/
theorem c10_unparsable_or_missing_id_words_omitted :
    (∀ doc : XMLElement, ParseHOCRWords (Except.ok doc)
        = Except.ok (traverseElementsWithLineContext doc []))
    ∧ (∀ (nm : Str) (ats : List (Str × Str)) (ct cur : Str) (w : HOCRWord),
        isWordElement ⟨nm, ats, ct, []⟩ = true →
        parseWordElement ⟨nm, ats, ct, []⟩ = Except.ok w → w.id = [] →
        traverseElementsWithLineContext ⟨nm, ats, ct, []⟩ cur = [])
    ∧ (∀ (title : Str) (w : HOCRWord) (a b c d e : Str),
        findBBox title = some (a, b, c, d) → atoiDigits a = Except.error e →
        parseTitleAttribute title w = Except.error e)
    ∧ (∀ (title : Str) (w : HOCRWord) (cs e : Str),
        findBBox title = none → findConf title = some cs →
        parseFloatDigits cs = Except.error e →
        parseTitleAttribute title w = Except.error e)
    ∧ (∀ wid title ct cur err : Str,
        parseTitleAttribute title { emptyWord with id := wid } = Except.error err →
        traverseElementsWithLineContext
            ⟨("span").data,
              [(classAttr, ("ocrx_word").data), (idAttr, wid), (titleAttr, title)],
              ct, []⟩ cur
          = []) := by
  refine ⟨fun doc => rfl, traverse_empty_id_word,
    parseTitleAttribute_bad_bbox_number, parseTitleAttribute_bad_conf_number, ?_⟩
  intro wid title ct cur err ht
  exact traverse_error_word _ _ ct cur err (parseWordElement_title_error wid title ct err ht)

theorem c10_unparsable_or_missing_id_words_omitted_witness :
    (findBBox (("bbox 99999999999999999999 1 2 3").data)
        = some ((("99999999999999999999").data), (("1").data), (("2").data), (("3").data))
      ∧ atoiDigits (("99999999999999999999").data)
        = Except.error (("value out of range").data)
      ∧ parseTitleAttribute (("bbox 99999999999999999999 1 2 3").data)
          { emptyWord with id := ("w1").data }
        = Except.error (("value out of range").data))
    ∧ parseTitleAttribute (("bbox 99999999999999999999 1 2 3").data) emptyWord
        = Except.error (("value out of range").data)
    ∧ traverseElementsWithLineContext
        ⟨("span").data,
          [(classAttr, ("ocrx_word").data), (idAttr, ("w1").data),
            (titleAttr, ("bbox 99999999999999999999 1 2 3").data)],
          ("word").data, []⟩ []
      = [] :=
  ⟨⟨by decide, rfl, rfl⟩,
    c10_unparsable_or_missing_id_words_omitted.2.2.1
      (("bbox 99999999999999999999 1 2 3").data) emptyWord
      (("99999999999999999999").data) (("1").data) (("2").data) (("3").data)
      (("value out of range").data) (by decide) rfl,
    c10_unparsable_or_missing_id_words_omitted.2.2.2.2
      (("w1").data) (("bbox 99999999999999999999 1 2 3").data)
      (("word").data) [] (("value out of range").data) rfl⟩

end Hocr

namespace Hocr

theorem dropWhile_len_le (p : Char → Bool) (s : Str) :
    (s.dropWhile p).length ≤ s.length := by
  induction s with
  | nil => simp
  | cons c rest ih =>
    rw [List.dropWhile]
    split
    · simp only [List.length_cons]
      omega
    · simp

theorem takeWhile_pos (p : Char → Bool) (c : Char) (rest : Str)
    (hc : p c = true) : 0 < ((c :: rest).takeWhile p).length := by
  rw [List.takeWhile_cons, hc]
  simp

theorem dropAfter_lt (pat s r : Str) (hp : pat ≠ []) (h : dropAfter pat s = some r) :
    r.length < s.length := by
  induction s with
  | nil => simp [dropAfter] at h
  | cons c rest ih =>
    rw [dropAfter] at h
    by_cases hs : startsWithStr (c :: rest) pat = true
    · rw [if_pos hs] at h
      have hr := Option.some.inj h
      have hpl : 0 < pat.length := List.length_pos.mpr hp
      rw [← hr, List.length_drop]
      simp only [List.length_cons]
      omega
    · rw [if_neg hs] at h
      have := ih h
      simp only [List.length_cons]
      omega

theorem skipBang_lt (r r2 : Str) (h : skipBang r = some r2) : r2.length < r.length := by
  unfold skipBang at h
  split at h
  · next r3 =>
    have := dropAfter_lt (("-->").data) r3 r2 (by decide) h
    simp only [List.length_cons]
    omega
  · exact dropAfter_lt ((">").data) r r2 (by decide) h

theorem step_shrinks (d d2 : DState) (h : StepR d d2) : d2.s.length < d.s.length := by
  obtain ⟨mode, stack, s⟩ := d
  simp only [StepR] at h
  cases mode with
  | prolog =>
    cases s with
    | nil => exact absurd h (by simp [step])
    | cons c rest =>
      simp only [step] at h
      split at h
      · split at h
        · split at h
          · next r r2 heq =>
            cases h
            have := dropAfter_lt _ _ _ (by decide) heq
            simp only [List.length_cons]
            omega
          · exact Except.noConfusion h
        · split at h
          · next r r2 heq =>
            cases h
            have := skipBang_lt _ _ heq
            simp only [List.length_cons]
            omega
          · exact Except.noConfusion h
        · split at h
          · exact Except.noConfusion h
          · cases h
            simp only [List.length_drop, List.length_cons]
            omega
      · cases h
        simp only [List.length_cons]
        omega
  | content =>
    cases s with
    | nil => exact absurd h (by simp [step])
    | cons c rest =>
      simp only [step] at h
      split at h
      · split at h
        · next r =>
          split at h
          · next r3 heq =>
            split at h
            · exact Except.noConfusion h
            · next p ps =>
              split at h
              · split at h
                · simp at h
                · cases h
                  have h1 : ((r.drop (r.takeWhile isNameChar).length).dropWhile
                      isXmlSpace).length ≤ r.length := by
                    have := dropWhile_len_le isXmlSpace (r.drop (r.takeWhile isNameChar).length)
                    simp only [List.length_drop] at this ⊢
                    omega
                  rw [heq] at h1
                  simp only [List.length_cons] at h1 ⊢
                  omega
              · exact Except.noConfusion h
          · exact Except.noConfusion h
        · split at h
          · next r r2 heq =>
            cases h
            have := dropAfter_lt _ _ _ (by decide) heq
            simp only [List.length_cons]
            omega
          · exact Except.noConfusion h
        · split at h
          · next r r2 heq =>
            cases h
            have := skipBang_lt _ _ heq
            simp only [List.length_cons]
            omega
          · exact Except.noConfusion h
        · split at h
          · exact Except.noConfusion h
          · cases h
            simp only [List.length_drop, List.length_cons]
            omega
      · split at h
        · split at h
          · cases h
            simp only [List.length_drop, List.length_cons]
            omega
          · exact Except.noConfusion h
        · cases h
          simp only [List.length_cons]
          omega
  | inTag nm ats =>
    cases s with
    | nil => exact absurd h (by simp [step])
    | cons c rest =>
      simp only [step] at h
      split at h
      · cases h
        simp only [List.length_cons]
        omega
      · split at h
        · cases h
          simp only [List.length_cons]
          omega
        · split at h
          · split at h
            · next r2 =>
              split at h
              · simp at h
              · cases h
                simp only [List.length_cons]
                omega
            · exact Except.noConfusion h
          · split at h
            · next hname =>
              split at h
              · next r3 heq =>
                split at h
                · next q r4 heq2 =>
                  split at h
                  · cases h
                    have ha := takeWhile_pos isNameChar c rest hname
                    have h1 : (((c :: rest).drop
                        ((c :: rest).takeWhile isNameChar).length).dropWhile
                        isXmlSpace).length ≤ rest.length + 1
                          - ((c :: rest).takeWhile isNameChar).length := by
                      have := dropWhile_len_le isXmlSpace
                        ((c :: rest).drop ((c :: rest).takeWhile isNameChar).length)
                      simp only [List.length_drop, List.length_cons] at this ⊢
                      omega
                    rw [heq] at h1
                    have h2 := congrArg List.length heq2
                    have h3 := dropWhile_len_le isXmlSpace r3
                    simp only [List.length_cons] at h1 h2 ⊢
                    omega
                  · exact Except.noConfusion h
                · exact Except.noConfusion h
              · exact Except.noConfusion h
            · exact Except.noConfusion h
  | inValue nm ats an q acc =>
    cases s with
    | nil => exact absurd h (by simp [step])
    | cons c rest =>
      simp only [step] at h
      split at h
      · cases h
        simp only [List.length_cons]
        omega
      · split at h
        · exact Except.noConfusion h
        · split at h
          · split at h
            · cases h
              simp only [List.length_drop, List.length_cons]
              omega
            · exact Except.noConfusion h
          · cases h
            simp only [List.length_cons]
            omega

end Hocr

namespace Hocr

theorem runD_reaches (d d2 : DState) (e : XMLElement)
    (hs : Steps d d2) (hf : step d2 = Except.ok (Sum.inr e)) :
    ∀ fuel, d.s.length < fuel → runD fuel d = Except.ok e := by
  induction hs using Relation.ReflTransGen.head_induction_on with
  | refl =>
    intro fuel hfuel
    cases fuel with
    | zero => omega
    | succ f =>
      rw [runD, hf]
  | head hstep htail ih =>
    intro fuel hfuel
    next a c =>
    have hlt := step_shrinks a c hstep
    cases fuel with
    | zero => omega
    | succ f =>
      rw [runD, hstep]
      exact ih f (by omega)

theorem steps_run2 (n : Nat) (d d2 : DState)
    (h : run2 n d = Except.ok (Sum.inl d2)) : Steps d d2 := by
  induction n generalizing d with
  | zero =>
    rw [run2] at h
    rw [← Sum.inl.inj (Except.ok.inj h)]
    exact Relation.ReflTransGen.refl
  | succ n ih =>
    rw [run2] at h
    cases hst : step d with
    | error e =>
      rw [hst] at h
      exact Except.noConfusion h
    | ok val =>
      cases val with
      | inl d3 =>
        rw [hst] at h
        exact Relation.ReflTransGen.head hst (ih d3 h)
      | inr e =>
        rw [hst] at h
        simp at h

theorem steps_trans (a b c : DState) (h1 : Steps a b) (h2 : Steps b c) : Steps a c :=
  Relation.ReflTransGen.trans h1 h2

theorem steps_value_chars (nm : Str) (ats : List (Str × Str)) (an : Str) (q : Char)
    (stk : List PElem) (v acc rest : Str)
    (hq : ∀ c ∈ v, c ≠ q ∧ c ≠ '<' ∧ c ≠ '&') :
    Steps ⟨DMode.inValue nm ats an q acc, stk, v ++ rest⟩
      ⟨DMode.inValue nm ats an q (acc ++ v), stk, rest⟩ := by
  induction v generalizing acc with
  | nil =>
    simp only [List.nil_append, List.append_nil]
    exact Relation.ReflTransGen.refl
  | cons c v ih =>
    have hc := hq c (List.mem_cons_self c v)
    have h2 := ih (acc ++ [c]) (fun x hx => hq x (List.mem_cons_of_mem c hx))
    rw [List.append_assoc, List.singleton_append] at h2
    refine Relation.ReflTransGen.head
      (show StepR ⟨DMode.inValue nm ats an q acc, stk, c :: (v ++ rest)⟩
        ⟨DMode.inValue nm ats an q (acc ++ [c]), stk, v ++ rest⟩ from ?_) h2
    show step ⟨DMode.inValue nm ats an q acc, stk, c :: (v ++ rest)⟩
      = Except.ok (Sum.inl ⟨DMode.inValue nm ats an q (acc ++ [c]), stk, v ++ rest⟩)
    simp only [step]
    rw [if_neg hc.1, if_neg hc.2.1, if_neg hc.2.2]

theorem steps_content_chars (p : PElem) (ps : List PElem) (v rest : Str)
    (hv : ∀ c ∈ v, c ≠ '<' ∧ c ≠ '&') :
    Steps ⟨DMode.content, p :: ps, v ++ rest⟩
      ⟨DMode.content, { p with content := p.content ++ v } :: ps, rest⟩ := by
  induction v generalizing p with
  | nil =>
    simp only [List.nil_append, List.append_nil]
    exact Relation.ReflTransGen.refl
  | cons c v ih =>
    have hc := hv c (List.mem_cons_self c v)
    have h2 := ih { p with content := p.content ++ [c] }
      (fun x hx => hv x (List.mem_cons_of_mem c hx))
    rw [List.append_assoc, List.singleton_append] at h2
    refine Relation.ReflTransGen.head
      (show StepR ⟨DMode.content, p :: ps, c :: (v ++ rest)⟩
        ⟨DMode.content, { p with content := p.content ++ [c] } :: ps, v ++ rest⟩
        from ?_) ?_
    · show step ⟨DMode.content, p :: ps, c :: (v ++ rest)⟩
        = Except.ok (Sum.inl ⟨DMode.content,
            { p with content := p.content ++ [c] } :: ps, v ++ rest⟩)
      simp only [step]
      rw [if_neg hc.1, if_neg hc.2]
      rfl
    · exact h2

end Hocr

namespace Hocr

theorem safe_char_triple {c : Char} (h : xmlAttrSafe c = true) :
    c ≠ sq ∧ c ≠ '<' ∧ c ≠ '&' := by
  simp only [xmlAttrSafe, Bool.not_eq_eq_eq_not, Bool.not_true, Bool.or_eq_false_iff,
    decide_eq_false_iff_not] at h
  exact ⟨h.1.1, h.2, h.1.2⟩

theorem safe_of_all {v : Str} (h : v.all xmlAttrSafe = true) :
    ∀ c ∈ v, c ≠ sq ∧ c ≠ '<' ∧ c ≠ '&' :=
  fun c hc => safe_char_triple (List.all_eq_true.mp h c hc)

theorem digit_safe {c : Char} (h : isDigitChar c = true) :
    c ≠ sq ∧ c ≠ '<' ∧ c ≠ '&' := by
  have hb := isDigitChar_bounds h
  refine ⟨?_, ?_, ?_⟩ <;> intro he <;> subst he <;> revert hb <;> decide

theorem natDigits_safe (n : Nat) :
    ∀ c ∈ natDigits n, c ≠ sq ∧ c ≠ '<' ∧ c ≠ '&' :=
  fun c hc => digit_safe (all_mem_of_all_digits (natDigits_all_digits n) c hc)

theorem intFmt_safe (n : Int) :
    ∀ c ∈ intFmt n, c ≠ sq ∧ c ≠ '<' ∧ c ≠ '&' := by
  intro c hc
  unfold intFmt at hc
  by_cases hn : n < 0
  · rw [if_pos hn] at hc
    rcases List.mem_cons.mp hc with h | h
    · subst h
      decide
    · exact natDigits_safe _ c h
  · rw [if_neg hn] at hc
    exact natDigits_safe _ c hc

theorem safe_app {a b : Str} (ha : ∀ c ∈ a, c ≠ sq ∧ c ≠ '<' ∧ c ≠ '&')
    (hb : ∀ c ∈ b, c ≠ sq ∧ c ≠ '<' ∧ c ≠ '&') :
    ∀ c ∈ a ++ b, c ≠ sq ∧ c ≠ '<' ∧ c ≠ '&' := by
  intro c hc
  rcases List.mem_append.mp hc with h | h
  · exact ha c h
  · exact hb c h

theorem pageTitleStr_safe (w h : Int) :
    ∀ c ∈ pageTitleStr w h, c ≠ sq ∧ c ≠ '<' ∧ c ≠ '&' := by
  unfold pageTitleStr
  exact safe_app (safe_app (safe_app (by decide) (intFmt_safe w)) (by decide))
    (intFmt_safe h)

theorem bboxTitleStr_safe (b : BBox) :
    ∀ c ∈ bboxTitleStr b, c ≠ sq ∧ c ≠ '<' ∧ c ≠ '&' := by
  unfold bboxTitleStr
  exact safe_app (safe_app (safe_app (safe_app (safe_app (safe_app
    (safe_app (by decide) (intFmt_safe b.x1)) (by decide)) (intFmt_safe b.y1))
    (by decide)) (intFmt_safe b.x2)) (by decide)) (intFmt_safe b.y2)

theorem wordTitleStr_safe (w : HOCRWord) :
    ∀ c ∈ wordTitleStr w, c ≠ sq ∧ c ≠ '<' ∧ c ≠ '&' := by
  unfold wordTitleStr
  exact safe_app (safe_app (bboxTitleStr_safe w.bbox) (by decide))
    (fun c hc => natDigits_safe _ c hc)

end Hocr

namespace Hocr

theorem steps_content_escaped (p : PElem) (ps : List PElem) (t rest : Str) :
    Steps ⟨DMode.content, p :: ps, htmlEscapeString t ++ rest⟩
      ⟨DMode.content, { p with content := p.content ++ t } :: ps, rest⟩ := by
  induction t generalizing p with
  | nil =>
    simp only [htmlEscapeString, List.flatMap_nil, List.nil_append, List.append_nil]
    exact Relation.ReflTransGen.refl
  | cons c t ih =>
    have hesc : htmlEscapeString (c :: t) = htmlEscapeChar c ++ htmlEscapeString t := by
      simp [htmlEscapeString]
    rw [hesc, List.append_assoc]
    have h2 := ih { p with content := p.content ++ [c] }
    rw [List.append_assoc, List.singleton_append] at h2
    by_cases ha : c = '&'
    · subst ha
      exact Relation.ReflTransGen.head
        (show StepR ⟨DMode.content, p :: ps,
            htmlEscapeChar '&' ++ (htmlEscapeString t ++ rest)⟩
          ⟨DMode.content, { p with content := p.content ++ ['&'] } :: ps,
            htmlEscapeString t ++ rest⟩ from rfl) h2
    · by_cases hq : c = sq
      · subst hq
        exact Relation.ReflTransGen.head
          (show StepR ⟨DMode.content, p :: ps,
              htmlEscapeChar sq ++ (htmlEscapeString t ++ rest)⟩
            ⟨DMode.content, { p with content := p.content ++ [sq] } :: ps,
              htmlEscapeString t ++ rest⟩ from rfl) h2
      · by_cases hl : c = '<'
        · subst hl
          exact Relation.ReflTransGen.head
            (show StepR ⟨DMode.content, p :: ps,
                htmlEscapeChar '<' ++ (htmlEscapeString t ++ rest)⟩
              ⟨DMode.content, { p with content := p.content ++ ['<'] } :: ps,
                htmlEscapeString t ++ rest⟩ from rfl) h2
        · by_cases hg : c = '>'
          · subst hg
            exact Relation.ReflTransGen.head
              (show StepR ⟨DMode.content, p :: ps,
                  htmlEscapeChar '>' ++ (htmlEscapeString t ++ rest)⟩
                ⟨DMode.content, { p with content := p.content ++ ['>'] } :: ps,
                  htmlEscapeString t ++ rest⟩ from rfl) h2
          · by_cases hd : c = '"'
            · subst hd
              exact Relation.ReflTransGen.head
                (show StepR ⟨DMode.content, p :: ps,
                    htmlEscapeChar '"' ++ (htmlEscapeString t ++ rest)⟩
                  ⟨DMode.content, { p with content := p.content ++ ['"'] } :: ps,
                    htmlEscapeString t ++ rest⟩ from rfl) h2
            · have hplain : htmlEscapeChar c = [c] := by
                unfold htmlEscapeChar
                rw [if_neg ha, if_neg hq, if_neg hl, if_neg hg, if_neg hd]
              rw [hplain]
              exact steps_trans _ _ _
                (steps_content_chars p ps [c] (htmlEscapeString t ++ rest)
                  (by intro x hx; rw [List.mem_singleton] at hx; subst hx; exact ⟨hl, ha⟩))
                h2

end Hocr

namespace Hocr

theorem steps_word (w : HOCRWord) (hsafe : w.id.all xmlAttrSafe = true)
    (p : PElem) (ps : List PElem) (T : Str) :
    Steps ⟨DMode.content, p :: ps, convertHOCRWordToXML w ++ T⟩
      ⟨DMode.content,
        ⟨p.name, p.attrs, p.content ++ [' '], p.children ++ [wordElem w]⟩ :: ps, T⟩ := by
  have hshape : convertHOCRWordToXML w ++ T
      = ("<span class=").data ++ ([sq] ++ (("ocrx_word").data ++ ([sq] ++ ((" id=").data ++ ([sq] ++ (w.id ++ ([sq] ++ ((" title=").data ++ ([sq] ++ (wordTitleStr w ++ ([sq] ++ ((">").data ++ (htmlEscapeString w.text ++ (("</span> ").data ++ (T))))))))))))))) := by
    unfold convertHOCRWordToXML
    simp only [List.append_assoc]
  rw [hshape]
  have sA : Steps
      ⟨DMode.content, p :: ps, ("<span class=").data ++ ([sq] ++ (("ocrx_word").data ++ ([sq] ++ ((" id=").data ++ ([sq] ++ (w.id ++ ([sq] ++ ((" title=").data ++ ([sq] ++ (wordTitleStr w ++ ([sq] ++ ((">").data ++ (htmlEscapeString w.text ++ (("</span> ").data ++ (T)))))))))))))))⟩
      ⟨DMode.inValue (("span").data) [((("class").data), (("ocrx_word").data))] (("id").data) sq [], p :: ps, w.id ++ ([sq] ++ ((" title=").data ++ ([sq] ++ (wordTitleStr w ++ ([sq] ++ ((">").data ++ (htmlEscapeString w.text ++ (("</span> ").data ++ (T)))))))))⟩ :=
    steps_run2 15 _ _ rfl
  have sB := steps_value_chars (("span").data) [((("class").data), (("ocrx_word").data))] (("id").data) sq (p :: ps)
    w.id [] ([sq] ++ ((" title=").data ++ ([sq] ++ (wordTitleStr w ++ ([sq] ++ ((">").data ++ (htmlEscapeString w.text ++ (("</span> ").data ++ (T))))))))) (safe_of_all hsafe)
  rw [List.nil_append] at sB
  have sC : Steps
      ⟨DMode.inValue (("span").data) [((("class").data), (("ocrx_word").data))] (("id").data) sq w.id, p :: ps, [sq] ++ ((" title=").data ++ ([sq] ++ (wordTitleStr w ++ ([sq] ++ ((">").data ++ (htmlEscapeString w.text ++ (("</span> ").data ++ (T))))))))⟩
      ⟨DMode.inValue (("span").data) [((("class").data), (("ocrx_word").data)), ((("id").data), w.id)] (("title").data) sq [], p :: ps, wordTitleStr w ++ ([sq] ++ ((">").data ++ (htmlEscapeString w.text ++ (("</span> ").data ++ (T)))))⟩ :=
    steps_run2 3 _ _ rfl
  have sD := steps_value_chars (("span").data) [((("class").data), (("ocrx_word").data)), ((("id").data), w.id)] (("title").data) sq (p :: ps)
    (wordTitleStr w) [] ([sq] ++ ((">").data ++ (htmlEscapeString w.text ++ (("</span> ").data ++ (T))))) (wordTitleStr_safe w)
  rw [List.nil_append] at sD
  have sE : Steps
      ⟨DMode.inValue (("span").data) [((("class").data), (("ocrx_word").data)), ((("id").data), w.id)] (("title").data) sq (wordTitleStr w),
        p :: ps, [sq] ++ ((">").data ++ (htmlEscapeString w.text ++ (("</span> ").data ++ (T))))⟩
      ⟨DMode.content, ⟨("span").data, [((("class").data), (("ocrx_word").data)), ((("id").data), w.id), ((("title").data), wordTitleStr w)], [], []⟩ :: p :: ps, htmlEscapeString w.text ++ (("</span> ").data ++ (T))⟩ :=
    steps_run2 2 _ _ rfl
  have sF := steps_content_escaped ⟨("span").data, [((("class").data), (("ocrx_word").data)), ((("id").data), w.id), ((("title").data), wordTitleStr w)], [], []⟩ (p :: ps) w.text (("</span> ").data ++ (T))
  rw [show (⟨("span").data, [((("class").data), (("ocrx_word").data)), ((("id").data), w.id), ((("title").data), wordTitleStr w)], [], []⟩ : PElem).content = [] from rfl, List.nil_append] at sF
  have sG : Steps
      ⟨DMode.content, ⟨("span").data, [((("class").data), (("ocrx_word").data)), ((("id").data), w.id), ((("title").data), wordTitleStr w)], w.text, []⟩ :: p :: ps, ("</span> ").data ++ (T)⟩
      ⟨DMode.content,
        ⟨p.name, p.attrs, p.content ++ [' '],
          p.children ++ [(⟨("span").data, [((("class").data), (("ocrx_word").data)), ((("id").data), w.id), ((("title").data), wordTitleStr w)], w.text, []⟩ : PElem).close]⟩ :: ps, T⟩ :=
    steps_run2 2 _ _ rfl
  have hwe : (⟨("span").data, [((("class").data), (("ocrx_word").data)), ((("id").data), w.id), ((("title").data), wordTitleStr w)], w.text, []⟩ : PElem).close = wordElem w := by
    unfold PElem.close wordElem
    rw [xmlUnescape_htmlEscapeString]
    rfl
  rw [hwe] at sG
  exact steps_trans _ _ _ sA (steps_trans _ _ _ sB (steps_trans _ _ _ sC
    (steps_trans _ _ _ sD (steps_trans _ _ _ sE (steps_trans _ _ _ sF sG)))))

end Hocr

namespace Hocr

theorem steps_words (ws : List HOCRWord)
    (hsafe : ∀ w ∈ ws, w.id.all xmlAttrSafe = true)
    (p : PElem) (ps : List PElem) (T : Str) :
    Steps ⟨DMode.content, p :: ps, ws.flatMap convertHOCRWordToXML ++ T⟩
      ⟨DMode.content,
        ⟨p.name, p.attrs, p.content ++ List.replicate ws.length (Char.ofNat 32),
          p.children ++ ws.map wordElem⟩ :: ps, T⟩ := by
  induction ws generalizing p with
  | nil =>
    simp only [List.flatMap_nil, List.nil_append, List.append_nil,
      List.replicate_zero, List.length_nil, List.map_nil]
    exact Relation.ReflTransGen.refl
  | cons w ws ih =>
    rw [List.flatMap_cons, List.append_assoc]
    have s1 := steps_word w (hsafe w (List.mem_cons_self w ws)) p ps
      (ws.flatMap convertHOCRWordToXML ++ T)
    have s2 := ih (fun x hx => hsafe x (List.mem_cons_of_mem w hx))
      ⟨p.name, p.attrs, p.content ++ [' '], p.children ++ [wordElem w]⟩
    have hsp : (' ' : Char) = Char.ofNat 32 := rfl
    simp only [List.append_assoc, List.singleton_append, List.length_cons,
      List.map_cons, List.replicate_succ, hsp] at s1 s2 ⊢
    exact steps_trans _ _ _ s1 s2

theorem steps_line (l : HOCRLine) (hl : l.id.all xmlAttrSafe = true)
    (hws : ∀ w ∈ l.words, w.id.all xmlAttrSafe = true)
    (p : PElem) (ps : List PElem) (T : Str) :
    Steps ⟨DMode.content, p :: ps, convertHOCRLineToXML l ++ T⟩
      ⟨DMode.content,
        ⟨p.name, p.attrs, p.content ++ [newlineChar],
          p.children ++ [lineElem l]⟩ :: ps, T⟩ := by
  have hshape : convertHOCRLineToXML l ++ T
      = ("<span class=").data ++ ([sq] ++ (("ocr_line").data ++ ([sq] ++ ((" id=").data ++ ([sq] ++ (l.id ++ ([sq] ++ ((" title=").data ++ ([sq] ++ (bboxTitleStr l.bbox ++ ([sq] ++ ((">").data ++ (l.words.flatMap convertHOCRWordToXML ++ (("</span>").data ++ ([newlineChar] ++ (T)))))))))))))))) := by
    unfold convertHOCRLineToXML
    simp only [List.append_assoc]
  rw [hshape]
  have sA : Steps
      ⟨DMode.content, p :: ps, ("<span class=").data ++ ([sq] ++ (("ocr_line").data ++ ([sq] ++ ((" id=").data ++ ([sq] ++ (l.id ++ ([sq] ++ ((" title=").data ++ ([sq] ++ (bboxTitleStr l.bbox ++ ([sq] ++ ((">").data ++ (l.words.flatMap convertHOCRWordToXML ++ (("</span>").data ++ ([newlineChar] ++ (T))))))))))))))))⟩
      ⟨DMode.inValue (("span").data) [((("class").data), (("ocr_line").data))] (("id").data) sq [], p :: ps, l.id ++ ([sq] ++ ((" title=").data ++ ([sq] ++ (bboxTitleStr l.bbox ++ ([sq] ++ ((">").data ++ (l.words.flatMap convertHOCRWordToXML ++ (("</span>").data ++ ([newlineChar] ++ (T))))))))))⟩ :=
    steps_run2 14 _ _ rfl
  have sB := steps_value_chars (("span").data) [((("class").data), (("ocr_line").data))] (("id").data) sq (p :: ps)
    l.id [] ([sq] ++ ((" title=").data ++ ([sq] ++ (bboxTitleStr l.bbox ++ ([sq] ++ ((">").data ++ (l.words.flatMap convertHOCRWordToXML ++ (("</span>").data ++ ([newlineChar] ++ (T)))))))))) (safe_of_all hl)
  rw [List.nil_append] at sB
  have sC : Steps
      ⟨DMode.inValue (("span").data) [((("class").data), (("ocr_line").data))] (("id").data) sq l.id, p :: ps, [sq] ++ ((" title=").data ++ ([sq] ++ (bboxTitleStr l.bbox ++ ([sq] ++ ((">").data ++ (l.words.flatMap convertHOCRWordToXML ++ (("</span>").data ++ ([newlineChar] ++ (T)))))))))⟩
      ⟨DMode.inValue (("span").data) [((("class").data), (("ocr_line").data)), ((("id").data), l.id)] (("title").data) sq [], p :: ps, bboxTitleStr l.bbox ++ ([sq] ++ ((">").data ++ (l.words.flatMap convertHOCRWordToXML ++ (("</span>").data ++ ([newlineChar] ++ (T))))))⟩ :=
    steps_run2 3 _ _ rfl
  have sD := steps_value_chars (("span").data) [((("class").data), (("ocr_line").data)), ((("id").data), l.id)] (("title").data) sq (p :: ps)
    (bboxTitleStr l.bbox) [] ([sq] ++ ((">").data ++ (l.words.flatMap convertHOCRWordToXML ++ (("</span>").data ++ ([newlineChar] ++ (T)))))) (bboxTitleStr_safe l.bbox)
  rw [List.nil_append] at sD
  have sE : Steps
      ⟨DMode.inValue (("span").data) [((("class").data), (("ocr_line").data)), ((("id").data), l.id)] (("title").data) sq (bboxTitleStr l.bbox),
        p :: ps, [sq] ++ ((">").data ++ (l.words.flatMap convertHOCRWordToXML ++ (("</span>").data ++ ([newlineChar] ++ (T)))))⟩
      ⟨DMode.content, ⟨("span").data, [((("class").data), (("ocr_line").data)), ((("id").data), l.id), ((("title").data), bboxTitleStr l.bbox)], [], []⟩ :: p :: ps, l.words.flatMap convertHOCRWordToXML ++ (("</span>").data ++ ([newlineChar] ++ (T)))⟩ :=
    steps_run2 2 _ _ rfl
  have sF := steps_words l.words hws ⟨("span").data, [((("class").data), (("ocr_line").data)), ((("id").data), l.id), ((("title").data), bboxTitleStr l.bbox)], [], []⟩ (p :: ps) (("</span>").data ++ ([newlineChar] ++ (T)))
  rw [show (⟨("span").data, [((("class").data), (("ocr_line").data)), ((("id").data), l.id), ((("title").data), bboxTitleStr l.bbox)], [], []⟩ : PElem).content = [] from rfl,
    show (⟨("span").data, [((("class").data), (("ocr_line").data)), ((("id").data), l.id), ((("title").data), bboxTitleStr l.bbox)], [], []⟩ : PElem).children = [] from rfl,
    List.nil_append, List.nil_append] at sF
  have sG : Steps
      ⟨DMode.content, ⟨("span").data, [((("class").data), (("ocr_line").data)), ((("id").data), l.id), ((("title").data), bboxTitleStr l.bbox)], List.replicate l.words.length (Char.ofNat 32), l.words.map wordElem⟩ :: p :: ps, ("</span>").data ++ ([newlineChar] ++ (T))⟩
      ⟨DMode.content,
        ⟨p.name, p.attrs, p.content ++ [newlineChar],
          p.children ++ [(⟨("span").data, [((("class").data), (("ocr_line").data)), ((("id").data), l.id), ((("title").data), bboxTitleStr l.bbox)], List.replicate l.words.length (Char.ofNat 32), l.words.map wordElem⟩ : PElem).close]⟩ :: ps, T⟩ :=
    steps_run2 2 _ _ rfl
  have hle : (⟨("span").data, [((("class").data), (("ocr_line").data)), ((("id").data), l.id), ((("title").data), bboxTitleStr l.bbox)], List.replicate l.words.length (Char.ofNat 32), l.words.map wordElem⟩ : PElem).close = lineElem l := by
    unfold PElem.close lineElem
    rfl
  rw [hle] at sG
  exact steps_trans _ _ _ sA (steps_trans _ _ _ sB (steps_trans _ _ _ sC
    (steps_trans _ _ _ sD (steps_trans _ _ _ sE (steps_trans _ _ _ sF sG)))))

theorem steps_lines (lines : List HOCRLine)
    (hl : ∀ l ∈ lines, l.id.all xmlAttrSafe = true)
    (hws : ∀ l ∈ lines, ∀ w ∈ l.words, w.id.all xmlAttrSafe = true)
    (p : PElem) (ps : List PElem) (T : Str) :
    Steps ⟨DMode.content, p :: ps, lines.flatMap convertHOCRLineToXML ++ T⟩
      ⟨DMode.content,
        ⟨p.name, p.attrs, p.content ++ List.replicate lines.length newlineChar,
          p.children ++ lines.map lineElem⟩ :: ps, T⟩ := by
  induction lines generalizing p with
  | nil =>
    simp only [List.flatMap_nil, List.nil_append, List.append_nil,
      List.replicate_zero, List.length_nil, List.map_nil]
    exact Relation.ReflTransGen.refl
  | cons l ls ih =>
    rw [List.flatMap_cons, List.append_assoc]
    have s1 := steps_line l (hl l (List.mem_cons_self l ls))
      (hws l (List.mem_cons_self l ls)) p ps (ls.flatMap convertHOCRLineToXML ++ T)
    have s2 := ih (fun x hx => hl x (List.mem_cons_of_mem l hx))
      (fun x hx => hws x (List.mem_cons_of_mem l hx))
      ⟨p.name, p.attrs, p.content ++ [newlineChar], p.children ++ [lineElem l]⟩
    simp only [List.append_assoc, List.singleton_append, List.length_cons,
      List.map_cons, List.replicate_succ] at s1 s2 ⊢
    exact steps_trans _ _ _ s1 s2

end Hocr

namespace Hocr

set_option maxRecDepth 16000 in
theorem steps_header (T : Str) :
    Steps ⟨DMode.prolog, [], hocrHeader ++ T⟩
      ⟨DMode.content,
        [⟨("body").data, [], [newlineChar], []⟩,
         ⟨("html").data, [((("xmlns").data), (("http://www.w3.org/1999/xhtml").data)), ((("lang").data), (("en").data)), ((("lang").data), (("en").data))], [newlineChar, newlineChar], [headElem]⟩], T⟩ := by
  have s1 : Steps ⟨DMode.prolog, [], hocrHeader ++ T⟩
      ⟨DMode.prolog, [], ("<html xmlns=\"http://www.w3.org/1999/xhtml\" xml:lang=\"en\" lang=\"en\">").data ++ ([newlineChar] ++ (("<head>").data ++ ([newlineChar] ++ (("<title></title>").data ++ ([newlineChar] ++ (("<meta http-equiv=\"Content-Type\" content=\"text/html; charset=utf-8\" />").data ++ ([newlineChar] ++ (("<meta name=").data ++ ([sq] ++ (("ocr-system").data ++ ([sq] ++ ((" content=").data ++ ([sq] ++ (("google-cloud-vision").data ++ ([sq] ++ ((" />").data ++ ([newlineChar] ++ (("<meta name=").data ++ ([sq] ++ (("ocr-capabilities").data ++ ([sq] ++ ((" content=").data ++ ([sq] ++ (("ocr_page ocr_carea ocr_par ocr_line ocrx_word").data ++ ([sq] ++ ((" />").data ++ ([newlineChar] ++ (("</head>").data ++ ([newlineChar] ++ (("<body>").data ++ ([newlineChar] ++ (T))))))))))))))))))))))))))))))))⟩ :=
    steps_run2 4 _ _ rfl
  have s2 : Steps ⟨DMode.prolog, [], ("<html xmlns=\"http://www.w3.org/1999/xhtml\" xml:lang=\"en\" lang=\"en\">").data ++ ([newlineChar] ++ (("<head>").data ++ ([newlineChar] ++ (("<title></title>").data ++ ([newlineChar] ++ (("<meta http-equiv=\"Content-Type\" content=\"text/html; charset=utf-8\" />").data ++ ([newlineChar] ++ (("<meta name=").data ++ ([sq] ++ (("ocr-system").data ++ ([sq] ++ ((" content=").data ++ ([sq] ++ (("google-cloud-vision").data ++ ([sq] ++ ((" />").data ++ ([newlineChar] ++ (("<meta name=").data ++ ([sq] ++ (("ocr-capabilities").data ++ ([sq] ++ ((" content=").data ++ ([sq] ++ (("ocr_page ocr_carea ocr_par ocr_line ocrx_word").data ++ ([sq] ++ ((" />").data ++ ([newlineChar] ++ (("</head>").data ++ ([newlineChar] ++ (("<body>").data ++ ([newlineChar] ++ (T))))))))))))))))))))))))))))))))⟩
      ⟨DMode.content, [⟨("html").data, [((("xmlns").data), (("http://www.w3.org/1999/xhtml").data)), ((("lang").data), (("en").data)), ((("lang").data), (("en").data))], [], []⟩], [newlineChar] ++ (("<head>").data ++ ([newlineChar] ++ (("<title></title>").data ++ ([newlineChar] ++ (("<meta http-equiv=\"Content-Type\" content=\"text/html; charset=utf-8\" />").data ++ ([newlineChar] ++ (("<meta name=").data ++ ([sq] ++ (("ocr-system").data ++ ([sq] ++ ((" content=").data ++ ([sq] ++ (("google-cloud-vision").data ++ ([sq] ++ ((" />").data ++ ([newlineChar] ++ (("<meta name=").data ++ ([sq] ++ (("ocr-capabilities").data ++ ([sq] ++ ((" content=").data ++ ([sq] ++ (("ocr_page ocr_carea ocr_par ocr_line ocrx_word").data ++ ([sq] ++ ((" />").data ++ ([newlineChar] ++ (("</head>").data ++ ([newlineChar] ++ (("<body>").data ++ ([newlineChar] ++ (T)))))))))))))))))))))))))))))))⟩ :=
    steps_run2 43 _ _ rfl
  have s3 : Steps ⟨DMode.content, [⟨("html").data, [((("xmlns").data), (("http://www.w3.org/1999/xhtml").data)), ((("lang").data), (("en").data)), ((("lang").data), (("en").data))], [], []⟩], [newlineChar] ++ (("<head>").data ++ ([newlineChar] ++ (("<title></title>").data ++ ([newlineChar] ++ (("<meta http-equiv=\"Content-Type\" content=\"text/html; charset=utf-8\" />").data ++ ([newlineChar] ++ (("<meta name=").data ++ ([sq] ++ (("ocr-system").data ++ ([sq] ++ ((" content=").data ++ ([sq] ++ (("google-cloud-vision").data ++ ([sq] ++ ((" />").data ++ ([newlineChar] ++ (("<meta name=").data ++ ([sq] ++ (("ocr-capabilities").data ++ ([sq] ++ ((" content=").data ++ ([sq] ++ (("ocr_page ocr_carea ocr_par ocr_line ocrx_word").data ++ ([sq] ++ ((" />").data ++ ([newlineChar] ++ (("</head>").data ++ ([newlineChar] ++ (("<body>").data ++ ([newlineChar] ++ (T)))))))))))))))))))))))))))))))⟩
      ⟨DMode.content,
        [⟨("head").data, [], [newlineChar, newlineChar], [⟨("title").data, [], [], []⟩, ⟨("meta").data, [((("http-equiv").data), (("Content-Type").data)), ((("content").data), (("text/html; charset=utf-8").data))], [], []⟩]⟩,
         ⟨("html").data, [((("xmlns").data), (("http://www.w3.org/1999/xhtml").data)), ((("lang").data), (("en").data)), ((("lang").data), (("en").data))], [newlineChar], []⟩], [newlineChar] ++ (("<meta name=").data ++ ([sq] ++ (("ocr-system").data ++ ([sq] ++ ((" content=").data ++ ([sq] ++ (("google-cloud-vision").data ++ ([sq] ++ ((" />").data ++ ([newlineChar] ++ (("<meta name=").data ++ ([sq] ++ (("ocr-capabilities").data ++ ([sq] ++ ((" content=").data ++ ([sq] ++ (("ocr_page ocr_carea ocr_par ocr_line ocrx_word").data ++ ([sq] ++ ((" />").data ++ ([newlineChar] ++ (("</head>").data ++ ([newlineChar] ++ (("<body>").data ++ ([newlineChar] ++ (T)))))))))))))))))))))))))⟩ :=
    steps_run2 53 _ _ rfl
  have s4 : Steps ⟨DMode.content,
        [⟨("head").data, [], [newlineChar, newlineChar], [⟨("title").data, [], [], []⟩, ⟨("meta").data, [((("http-equiv").data), (("Content-Type").data)), ((("content").data), (("text/html; charset=utf-8").data))], [], []⟩]⟩,
         ⟨("html").data, [((("xmlns").data), (("http://www.w3.org/1999/xhtml").data)), ((("lang").data), (("en").data)), ((("lang").data), (("en").data))], [newlineChar], []⟩], [newlineChar] ++ (("<meta name=").data ++ ([sq] ++ (("ocr-system").data ++ ([sq] ++ ((" content=").data ++ ([sq] ++ (("google-cloud-vision").data ++ ([sq] ++ ((" />").data ++ ([newlineChar] ++ (("<meta name=").data ++ ([sq] ++ (("ocr-capabilities").data ++ ([sq] ++ ((" content=").data ++ ([sq] ++ (("ocr_page ocr_carea ocr_par ocr_line ocrx_word").data ++ ([sq] ++ ((" />").data ++ ([newlineChar] ++ (("</head>").data ++ ([newlineChar] ++ (("<body>").data ++ ([newlineChar] ++ (T)))))))))))))))))))))))))⟩
      ⟨DMode.content,
        [⟨("head").data, [], [newlineChar, newlineChar, newlineChar],
            [⟨("title").data, [], [], []⟩, ⟨("meta").data, [((("http-equiv").data), (("Content-Type").data)), ((("content").data), (("text/html; charset=utf-8").data))], [], []⟩, ⟨("meta").data, [((("name").data), (("ocr-system").data)), ((("content").data), (("google-cloud-vision").data))], [], []⟩]⟩,
         ⟨("html").data, [((("xmlns").data), (("http://www.w3.org/1999/xhtml").data)), ((("lang").data), (("en").data)), ((("lang").data), (("en").data))], [newlineChar], []⟩], [newlineChar] ++ (("<meta name=").data ++ ([sq] ++ (("ocr-capabilities").data ++ ([sq] ++ ((" content=").data ++ ([sq] ++ (("ocr_page ocr_carea ocr_par ocr_line ocrx_word").data ++ ([sq] ++ ((" />").data ++ ([newlineChar] ++ (("</head>").data ++ ([newlineChar] ++ (("<body>").data ++ ([newlineChar] ++ (T)))))))))))))))⟩ :=
    steps_run2 39 _ _ rfl
  have s5 : Steps ⟨DMode.content,
        [⟨("head").data, [], [newlineChar, newlineChar, newlineChar],
            [⟨("title").data, [], [], []⟩, ⟨("meta").data, [((("http-equiv").data), (("Content-Type").data)), ((("content").data), (("text/html; charset=utf-8").data))], [], []⟩, ⟨("meta").data, [((("name").data), (("ocr-system").data)), ((("content").data), (("google-cloud-vision").data))], [], []⟩]⟩,
         ⟨("html").data, [((("xmlns").data), (("http://www.w3.org/1999/xhtml").data)), ((("lang").data), (("en").data)), ((("lang").data), (("en").data))], [newlineChar], []⟩], [newlineChar] ++ (("<meta name=").data ++ ([sq] ++ (("ocr-capabilities").data ++ ([sq] ++ ((" content=").data ++ ([sq] ++ (("ocr_page ocr_carea ocr_par ocr_line ocrx_word").data ++ ([sq] ++ ((" />").data ++ ([newlineChar] ++ (("</head>").data ++ ([newlineChar] ++ (("<body>").data ++ ([newlineChar] ++ (T)))))))))))))))⟩
      ⟨DMode.content,
        [⟨("head").data, [],
            [newlineChar, newlineChar, newlineChar, newlineChar],
            [⟨("title").data, [], [], []⟩, ⟨("meta").data, [((("http-equiv").data), (("Content-Type").data)), ((("content").data), (("text/html; charset=utf-8").data))], [], []⟩, ⟨("meta").data, [((("name").data), (("ocr-system").data)), ((("content").data), (("google-cloud-vision").data))], [], []⟩, ⟨("meta").data, [((("name").data), (("ocr-capabilities").data)), ((("content").data), (("ocr_page ocr_carea ocr_par ocr_line ocrx_word").data))], [], []⟩]⟩,
         ⟨("html").data, [((("xmlns").data), (("http://www.w3.org/1999/xhtml").data)), ((("lang").data), (("en").data)), ((("lang").data), (("en").data))], [newlineChar], []⟩], [newlineChar] ++ (("</head>").data ++ ([newlineChar] ++ (("<body>").data ++ ([newlineChar] ++ (T)))))⟩ :=
    steps_run2 71 _ _ rfl
  have s6 : Steps ⟨DMode.content,
        [⟨("head").data, [],
            [newlineChar, newlineChar, newlineChar, newlineChar],
            [⟨("title").data, [], [], []⟩, ⟨("meta").data, [((("http-equiv").data), (("Content-Type").data)), ((("content").data), (("text/html; charset=utf-8").data))], [], []⟩, ⟨("meta").data, [((("name").data), (("ocr-system").data)), ((("content").data), (("google-cloud-vision").data))], [], []⟩, ⟨("meta").data, [((("name").data), (("ocr-capabilities").data)), ((("content").data), (("ocr_page ocr_carea ocr_par ocr_line ocrx_word").data))], [], []⟩]⟩,
         ⟨("html").data, [((("xmlns").data), (("http://www.w3.org/1999/xhtml").data)), ((("lang").data), (("en").data)), ((("lang").data), (("en").data))], [newlineChar], []⟩], [newlineChar] ++ (("</head>").data ++ ([newlineChar] ++ (("<body>").data ++ ([newlineChar] ++ (T)))))⟩
      ⟨DMode.content,
        [⟨("body").data, [], [newlineChar], []⟩,
         ⟨("html").data, [((("xmlns").data), (("http://www.w3.org/1999/xhtml").data)), ((("lang").data), (("en").data)), ((("lang").data), (("en").data))], [newlineChar, newlineChar], [headElem]⟩], T⟩ :=
    steps_run2 6 _ _ rfl
  exact steps_trans _ _ _ s1 (steps_trans _ _ _ s2 (steps_trans _ _ _ s3
    (steps_trans _ _ _ s4 (steps_trans _ _ _ s5 s6))))

end Hocr

namespace Hocr

/-- The `encoding/xml` decode of the markup emitted by
`ConvertHOCRLinesToXML`: when every line and word identifier is free of the
three characters that break a single-quoted attribute, the decoder succeeds
and produces exactly the element tree `encodeDoc`. -/
theorem decodeXML_convert (lines : List HOCRLine) (W H : Int)
    (hl : ∀ l ∈ lines, l.id.all xmlAttrSafe = true)
    (hws : ∀ l ∈ lines, ∀ w ∈ l.words, w.id.all xmlAttrSafe = true) :
    decodeXML (ConvertHOCRLinesToXML lines W H)
      = Except.ok (encodeDoc lines W H) := by
  have hshape : ConvertHOCRLinesToXML lines W H = hocrHeader ++ (("<div class=").data ++ ([sq] ++ (("ocr_page").data ++ ([sq] ++ ((" id=").data ++ ([sq] ++ (("page_1").data ++ ([sq] ++ ((" title=").data ++ ([sq] ++ (pageTitleStr W H ++ ([sq] ++ ((">").data ++ ([newlineChar] ++ (lines.flatMap convertHOCRLineToXML ++ (("</div>").data ++ ([newlineChar] ++ (("</body>").data ++ ([newlineChar] ++ (("</html>").data ++ ([newlineChar]))))))))))))))))))))) := by
    unfold ConvertHOCRLinesToXML
    simp only [List.append_assoc]
  have s1 := steps_header (("<div class=").data ++ ([sq] ++ (("ocr_page").data ++ ([sq] ++ ((" id=").data ++ ([sq] ++ (("page_1").data ++ ([sq] ++ ((" title=").data ++ ([sq] ++ (pageTitleStr W H ++ ([sq] ++ ((">").data ++ ([newlineChar] ++ (lines.flatMap convertHOCRLineToXML ++ (("</div>").data ++ ([newlineChar] ++ (("</body>").data ++ ([newlineChar] ++ (("</html>").data ++ ([newlineChar])))))))))))))))))))))
  have s2 : Steps
      ⟨DMode.content, [⟨("body").data, [], [newlineChar], []⟩, ⟨("html").data, [((("xmlns").data), (("http://www.w3.org/1999/xhtml").data)), ((("lang").data), (("en").data)), ((("lang").data), (("en").data))], [newlineChar, newlineChar], [headElem]⟩], ("<div class=").data ++ ([sq] ++ (("ocr_page").data ++ ([sq] ++ ((" id=").data ++ ([sq] ++ (("page_1").data ++ ([sq] ++ ((" title=").data ++ ([sq] ++ (pageTitleStr W H ++ ([sq] ++ ((">").data ++ ([newlineChar] ++ (lines.flatMap convertHOCRLineToXML ++ (("</div>").data ++ ([newlineChar] ++ (("</body>").data ++ ([newlineChar] ++ (("</html>").data ++ ([newlineChar]))))))))))))))))))))⟩
      ⟨DMode.inValue (("div").data)
          [((("class").data), (("ocr_page").data)), ((("id").data), (("page_1").data))]
          (("title").data) sq [], [⟨("body").data, [], [newlineChar], []⟩, ⟨("html").data, [((("xmlns").data), (("http://www.w3.org/1999/xhtml").data)), ((("lang").data), (("en").data)), ((("lang").data), (("en").data))], [newlineChar, newlineChar], [headElem]⟩], pageTitleStr W H ++ ([sq] ++ ((">").data ++ ([newlineChar] ++ (lines.flatMap convertHOCRLineToXML ++ (("</div>").data ++ ([newlineChar] ++ (("</body>").data ++ ([newlineChar] ++ (("</html>").data ++ ([newlineChar]))))))))))⟩ :=
    steps_run2 23 _ _ rfl
  have s3 := steps_value_chars (("div").data)
    [((("class").data), (("ocr_page").data)), ((("id").data), (("page_1").data))]
    (("title").data) sq [⟨("body").data, [], [newlineChar], []⟩, ⟨("html").data, [((("xmlns").data), (("http://www.w3.org/1999/xhtml").data)), ((("lang").data), (("en").data)), ((("lang").data), (("en").data))], [newlineChar, newlineChar], [headElem]⟩] (pageTitleStr W H) [] ([sq] ++ ((">").data ++ ([newlineChar] ++ (lines.flatMap convertHOCRLineToXML ++ (("</div>").data ++ ([newlineChar] ++ (("</body>").data ++ ([newlineChar] ++ (("</html>").data ++ ([newlineChar]))))))))))
    (pageTitleStr_safe W H)
  rw [List.nil_append] at s3
  have s4 : Steps
      ⟨DMode.inValue (("div").data)
          [((("class").data), (("ocr_page").data)), ((("id").data), (("page_1").data))]
          (("title").data) sq (pageTitleStr W H), [⟨("body").data, [], [newlineChar], []⟩, ⟨("html").data, [((("xmlns").data), (("http://www.w3.org/1999/xhtml").data)), ((("lang").data), (("en").data)), ((("lang").data), (("en").data))], [newlineChar, newlineChar], [headElem]⟩], [sq] ++ ((">").data ++ ([newlineChar] ++ (lines.flatMap convertHOCRLineToXML ++ (("</div>").data ++ ([newlineChar] ++ (("</body>").data ++ ([newlineChar] ++ (("</html>").data ++ ([newlineChar])))))))))⟩
      ⟨DMode.content, [⟨("div").data, [((("class").data), (("ocr_page").data)), ((("id").data), (("page_1").data)), ((("title").data), pageTitleStr W H)], [newlineChar], []⟩, ⟨("body").data, [], [newlineChar], []⟩, ⟨("html").data, [((("xmlns").data), (("http://www.w3.org/1999/xhtml").data)), ((("lang").data), (("en").data)), ((("lang").data), (("en").data))], [newlineChar, newlineChar], [headElem]⟩], lines.flatMap convertHOCRLineToXML ++ (("</div>").data ++ ([newlineChar] ++ (("</body>").data ++ ([newlineChar] ++ (("</html>").data ++ ([newlineChar]))))))⟩ :=
    steps_run2 3 _ _ rfl
  have s5 := steps_lines lines hl hws (⟨("div").data, [((("class").data), (("ocr_page").data)), ((("id").data), (("page_1").data)), ((("title").data), pageTitleStr W H)], [newlineChar], []⟩) [⟨("body").data, [], [newlineChar], []⟩, ⟨("html").data, [((("xmlns").data), (("http://www.w3.org/1999/xhtml").data)), ((("lang").data), (("en").data)), ((("lang").data), (("en").data))], [newlineChar, newlineChar], [headElem]⟩] (("</div>").data ++ ([newlineChar] ++ (("</body>").data ++ ([newlineChar] ++ (("</html>").data ++ ([newlineChar]))))))
  have hrep : [newlineChar] ++ List.replicate lines.length newlineChar
      = List.replicate (lines.length + 1) newlineChar := by
    rw [List.replicate_succ, List.singleton_append]
  rw [show (⟨("div").data, [((("class").data), (("ocr_page").data)), ((("id").data), (("page_1").data)), ((("title").data), pageTitleStr W H)], [newlineChar], []⟩ : PElem).content = [newlineChar] from rfl,
    show (⟨("div").data, [((("class").data), (("ocr_page").data)), ((("id").data), (("page_1").data)), ((("title").data), pageTitleStr W H)], [newlineChar], []⟩ : PElem).children = [] from rfl, hrep, List.nil_append] at s5
  have s6 : Steps
      ⟨DMode.content, [⟨("div").data, [((("class").data), (("ocr_page").data)), ((("id").data), (("page_1").data)), ((("title").data), pageTitleStr W H)], List.replicate (lines.length + 1) newlineChar, lines.map lineElem⟩, ⟨("body").data, [], [newlineChar], []⟩, ⟨("html").data, [((("xmlns").data), (("http://www.w3.org/1999/xhtml").data)), ((("lang").data), (("en").data)), ((("lang").data), (("en").data))], [newlineChar, newlineChar], [headElem]⟩], ("</div>").data ++ ([newlineChar] ++ (("</body>").data ++ ([newlineChar] ++ (("</html>").data ++ ([newlineChar])))))⟩
      ⟨DMode.content,
        [⟨("html").data, [((("xmlns").data), (("http://www.w3.org/1999/xhtml").data)), ((("lang").data), (("en").data)), ((("lang").data), (("en").data))], [newlineChar, newlineChar, newlineChar],
          [headElem, bodyElem lines W H]⟩], ("</html>").data ++ ([newlineChar])⟩ :=
    steps_run2 4 _ _ rfl
  have hfinal : step
      ⟨DMode.content,
        [⟨("html").data, [((("xmlns").data), (("http://www.w3.org/1999/xhtml").data)), ((("lang").data), (("en").data)), ((("lang").data), (("en").data))], [newlineChar, newlineChar, newlineChar],
          [headElem, bodyElem lines W H]⟩], ("</html>").data ++ ([newlineChar])⟩
      = Except.ok (Sum.inr (encodeDoc lines W H)) := rfl
  have hsteps := steps_trans _ _ _ s1 (steps_trans _ _ _ s2 (steps_trans _ _ _ s3
    (steps_trans _ _ _ s4 (steps_trans _ _ _ s5 s6))))
  unfold decodeXML
  rw [hshape]
  exact runD_reaches _ _ _ hsteps hfinal _ (by simp)

end Hocr

namespace Hocr

theorem runD_error (d d2 : DState) (e : Str)
    (hs : Steps d d2) (hf : step d2 = Except.error e) :
    ∀ fuel, d.s.length < fuel → runD fuel d = Except.error e := by
  induction hs using Relation.ReflTransGen.head_induction_on with
  | refl =>
    intro fuel hfuel
    cases fuel with
    | zero => omega
    | succ f =>
      rw [runD, hf]
  | head hstep htail ih =>
    intro fuel hfuel
    next a c =>
    have hlt := step_shrinks a c hstep
    cases fuel with
    | zero => omega
    | succ f =>
      rw [runD, hstep]
      exact ih f (by omega)

end Hocr
